import Mathlib

/-!
# Receipt processor: scoring engine and score store

A shallow embedding of `internal/receipt/server/impl.go` and of the library
functions it calls (`unicode.In`, `strings.Trim`, `strconv.ParseFloat`,
`math.Mod`, `math.Ceil`, `time.Parse`, `uuid.Parse`, `uuid.NewRandom`), followed
by the theorems that settle the specification's claims about the scoring rules
and about the two HTTP handlers and the map they share.

Conventions.

* A Go `string` that reaches the scoring engine is valid UTF-8 (it comes out of
  `encoding/json`, which replaces invalid bytes by U+FFFD, or from a Go string
  literal in the tests), so it is a Lean `String`: `range s` walks its `Char`s
  and `len(s)` is its UTF-8 byte size.
* `uint64` values are `Nat`s below `2 ^ 64`; every `uint64` addition is written
  with an explicit `% 2 ^ 64`.
* The package variable `pointsMap` is passed explicitly: a handler takes the
  map before the call and returns its answer with the map after the call. The
  JSON decoder of the request body and the bytes of the random source are
  inputs of the submission handler.
* `float64` values are the type `F64`: NaN, the two infinities, and signed dyadic
  numbers `(-1)^neg * mant * 2^exp`; arithmetic results are rounded to the
  nearest binary64 value, ties to even.
-/

namespace ReceiptServer

/-! ## Machine integers -/

/-- The modulus of `uint64` arithmetic. -/
def uint64Mod : Nat := 2 ^ 64

/-- Wrap a natural number to `uint64`. -/
def wrap64 (n : Nat) : Nat := n % uint64Mod

/-- Go `a + b` on `uint64`. -/
def addU64 (a b : Nat) : Nat := wrap64 (a + b)

/-! ## `unicode` -/

/-- Go `unicode.Range16`: the code points `Lo, Lo+Stride, ..., Hi`. -/
structure Range16 where
  Lo : Nat
  Hi : Nat
  Stride : Nat
  deriving Repr, DecidableEq

/-- Go `unicode.RangeTable`, restricted to the 16-bit ranges (the only ones the program fills in). -/
structure RangeTable where
  R16 : List Range16
  LatinOffset : Nat
  deriving Repr, DecidableEq

/-- Go `unicode.is16`, linear branch (taken for tables of at most 18 ranges):
walk the sorted ranges, stop at the first one that starts above `r`. -/
def is16 : List Range16 → Nat → Bool
  | [], _ => false
  | range_ :: ranges, r =>
    if r < range_.Lo then false
    else if r ≤ range_.Hi then
      range_.Stride == 1 || (r - range_.Lo) % range_.Stride == 0
    else is16 ranges r

/-- Go `unicode.Is`: a rune above the last 16-bit range is looked up in the
(here empty) 32-bit ranges, any other in the 16-bit ranges. -/
def unicodeIs (rangeTab : RangeTable) (r : Char) : Bool :=
  match rangeTab.R16.getLast? with
  | some last => if r.toNat ≤ last.Hi then is16 rangeTab.R16 r.toNat else false
  | none => false

/-- Go `unicode.In` with one table. -/
def unicodeIn (r : Char) (rangeTab : RangeTable) : Bool :=
  unicodeIs rangeTab r

/-! ## `strings` -/

/-- Go `strings.Trim(s, " ")`: drop the leading and the trailing U+0020 characters. -/
def stringsTrimSpace (s : String) : List Char :=
  ((s.toList.dropWhile (· == ' ')).reverse.dropWhile (· == ' ')).reverse

/-- Go `len` of a string given by its characters: the number of UTF-8 bytes. -/
def goLen (cs : List Char) : Nat :=
  (cs.map Char.utf8Size).sum

/-! ## `time.Parse` with the layout `"15:04"` -/

/-- Go `time.isDigit(s, i)`. -/
def isDigitAt (s : List Char) (i : Nat) : Bool :=
  match s.get? i with
  | some c => '0' ≤ c && c ≤ '9'
  | none => false

/-- Value of a decimal digit character. -/
def digitVal (c : Char) : Nat := c.toNat - '0'.toNat

/-- Go `time.getnum`: one or two leading digits (exactly two when `fixed`),
with the rest of the input; `none` is `errBad`. -/
def getnum (s : List Char) (fixed : Bool) : Option (Nat × List Char) :=
  if !isDigitAt s 0 then none
  else if !isDigitAt s 1 then
    if fixed then none
    else
      match s with
      | c0 :: rest => some (digitVal c0, rest)
      | [] => none
  else
    match s with
    | c0 :: c1 :: rest => some (digitVal c0 * 10 + digitVal c1, rest)
    | _ => none

/-- The two fields of the `time.Time` the program reads. -/
structure ClockTime where
  hour : Nat
  minute : Nat
  deriving Repr, DecidableEq

/-- Go `time.Parse("15:04", value)`: the chunk `15` reads an hour of one or two
digits below 24, the literal `:` must follow, the chunk `04` reads exactly two
digits below 60, and nothing may remain. `none` stands for a non-nil error. -/
def timeParseHHMM (value : String) : Option ClockTime :=
  match getnum value.toList false with
  | none => none
  | some (hour, value1) =>
    if 24 ≤ hour then none
    else
      match value1 with
      | ':' :: value2 =>
        match getnum value2 true with
        | none => none
        | some (min, value3) =>
          if 60 ≤ min then none
          else if value3.length != 0 then none
          else some ⟨hour, min⟩
      | _ => none

/-! ## `float64` -/

/-- An IEEE-754 binary64 value: NaN, a signed infinity, or the signed dyadic
number `(-1)^neg * mant * 2^exp` (signed zeros are `mant = 0`). Only the value
matters: the same number may be written with several `mant`/`exp` pairs, and
comparisons go through `F64.eq`. -/
inductive F64 where
  | nan : F64
  | inf (neg : Bool) : F64
  | fin (neg : Bool) (mant : Nat) (exp : Int) : F64
  deriving Repr, DecidableEq

/-- Number of binary digits of `n`, by halving at most `fuel` times. -/
def bitLenAux : Nat → Nat → Nat
  | 0, _ => 0
  | fuel + 1, n => if n = 0 then 0 else bitLenAux fuel (n / 2) + 1

/-- Number of binary digits of `n` (`0` for `0`). -/
def bitLen (n : Nat) : Nat := bitLenAux n n

/-- The fraction `num / den` divided by `2^e`, as a numerator and a denominator. -/
def scaleFrac (num den : Nat) (e : Int) : Nat × Nat :=
  if 0 ≤ e then (num, den * 2 ^ e.toNat) else (num * 2 ^ (-e).toNat, den)

/-- The integer nearest to `n / d`, ties to the even one. -/
def roundHalfEven (n d : Nat) : Nat :=
  if d < 2 * (n % d) ∨ (2 * (n % d) = d ∧ (n / d) % 2 = 1) then n / d + 1 else n / d

/-- The binary exponent at which `num / den` (both positive) has a 53-bit
integer part, not below the subnormal exponent `-1074`. -/
def binExp (num den : Nat) : Int :=
  let e0 : Int := (bitLen num : Int) - (bitLen den : Int) - 53
  let e1 : Int := if (scaleFrac num den e0).2 * 2 ^ 53 ≤ (scaleFrac num den e0).1 then e0 + 1 else e0
  max e1 (-1074)

/-- The binary64 value nearest to `(-1)^neg * num / den` (`den > 0`), ties to
even: IEEE-754 round-to-nearest of an exact result. Results of magnitude
`2^1024` or more are the infinity; tiny results become subnormal or zero. -/
def F64.ofFrac (neg : Bool) (num den : Nat) : F64 :=
  if num = 0 then .fin neg 0 0
  else
    let e := binExp num den
    let m := roundHalfEven (scaleFrac num den e).1 (scaleFrac num den e).2
    if 972 ≤ e ∨ (e = 971 ∧ 2 ^ 53 ≤ m) then .inf neg else .fin neg m e

/-- The value `(-1)^neg * mant * 2^exp` rounded to binary64. -/
def F64.ofDyadic (neg : Bool) (mant : Nat) (exp : Int) : F64 :=
  if 0 ≤ exp then F64.ofFrac neg (mant * 2 ^ exp.toNat) 1
  else F64.ofFrac neg mant (2 ^ (-exp).toNat)

/-- The value `(-1)^neg * mant * 10^exp` rounded to binary64. -/
def F64.ofDecimal (neg : Bool) (mant : Nat) (exp : Int) : F64 :=
  if 0 ≤ exp then F64.ofFrac neg (mant * 10 ^ exp.toNat) 1
  else F64.ofFrac neg mant (10 ^ (-exp).toNat)

/-- The exact rational value of a finite `F64`. -/
def F64.toRat : F64 → Option ℚ
  | .fin neg mant exp => some ((if neg then -1 else 1) * (mant : ℚ) * (2 : ℚ) ^ exp)
  | _ => none

/-- Go `x == y` on `float64`: NaN equals nothing, the two zeros are equal. -/
def F64.eq : F64 → F64 → Bool
  | .nan, _ => false
  | _, .nan => false
  | .inf a, .inf b => a == b
  | .inf _, .fin _ _ _ => false
  | .fin _ _ _, .inf _ => false
  | .fin a m e, .fin b m2 e2 =>
    (m == 0 && m2 == 0) ||
      (a == b && m * 2 ^ (e - min e e2).toNat == m2 * 2 ^ (e2 - min e e2).toNat)

/-- The `float64` constant `0`. -/
def F64.zero : F64 := .fin false 0 0

/-- Go `math.Mod(x, y)`: NaN when `x` is infinite or NaN or `y` is zero or NaN,
`x` when `y` is infinite, otherwise the exact remainder of `|x| / |y|` with the
sign of `x`. -/
def mathMod : F64 → F64 → F64
  | .nan, _ => .nan
  | .inf _, _ => .nan
  | .fin _ _ _, .nan => .nan
  | .fin neg m e, .inf _ => .fin neg m e
  | .fin neg m e, .fin _ m2 e2 =>
    if m2 = 0 then .nan
    else .fin neg ((m * 2 ^ (e - min e e2).toNat) % (m2 * 2 ^ (e2 - min e e2).toNat)) (min e e2)

/-- Go `math.Ceil(x)`: the least integer value not below `x`; zeros, infinities
and NaN are returned unchanged, and a negative `x` above `-1` gives `-0`. -/
def mathCeil : F64 → F64
  | .nan => .nan
  | .inf neg => .inf neg
  | .fin neg m e =>
    if 0 ≤ e then .fin neg m e
    else if neg then .fin true (m / 2 ^ (-e).toNat) 0
    else .fin false ((m + 2 ^ (-e).toNat - 1) / 2 ^ (-e).toNat) 0

/-- Go `x * y` on `float64`: the exact product rounded to nearest, with the
IEEE-754 special cases (`0 * Inf` is NaN). -/
def F64.mul : F64 → F64 → F64
  | .nan, _ => .nan
  | _, .nan => .nan
  | .inf a, .inf b => .inf (xor a b)
  | .inf a, .fin b m _ => if m = 0 then .nan else .inf (xor a b)
  | .fin a m _, .inf b => if m = 0 then .nan else .inf (xor a b)
  | .fin a m e, .fin b m2 e2 => F64.ofDyadic (xor a b) (m * m2) (e + e2)

/-- Go `uint64(x)` for a `float64` `x`: the fraction is discarded; when the
truncated value is not a `uint64` (negative, `2^64` or more, infinite, NaN) the
Go specification leaves the result to the implementation, here `oor x`. -/
def toUint64 (oor : F64 → Nat) : F64 → Nat
  | .fin neg m e =>
    let t : Nat := if 0 ≤ e then m * 2 ^ e.toNat else m / 2 ^ (-e).toNat
    if t = 0 then 0
    else if neg ∨ uint64Mod ≤ t then wrap64 (oor (.fin neg m e))
    else t
  | x => wrap64 (oor x)

/-! ## `strconv.ParseFloat` -/

/-- The two ways `strconv.ParseFloat` fails. -/
inductive NumError where
  | ErrSyntax : NumError
  | ErrRange : NumError
  deriving Repr, DecidableEq

/-- Go `strconv.lower(c)`, that is `c | 0x20`, on a code point. -/
def lowerCode (c : Char) : Nat :=
  if (c.toNat / 32) % 2 = 0 then c.toNat + 32 else c.toNat

/-- Go `strconv.commonPrefixLenIgnoreCase(s, word)` for a lower-case `word`:
the number of leading characters of `s` that match `word` once `A`-`Z` are
lowered. -/
def commonPrefixLenIgnoreCase : List Char → List Char → Nat
  | c :: s, p :: word =>
    let c1 : Nat := if 'A' ≤ c ∧ c ≤ 'Z' then c.toNat + 32 else c.toNat
    if c1 = p.toNat then commonPrefixLenIgnoreCase s word + 1 else 0
  | _, _ => 0

/-- Go `strconv.special`: the value and the number of characters read when the
input starts with an optionally signed `inf`/`infinity` or with `nan`, in any
case. -/
def special (s : List Char) : Option (F64 × Nat) :=
  let infinityAfter (neg : Bool) (nsign : Nat) (t : List Char) : Option (F64 × Nat) :=
    let n := commonPrefixLenIgnoreCase t "infinity".toList
    let n1 := if 3 < n ∧ n < 8 then 3 else n
    if n1 = 3 ∨ n1 = 8 then some (F64.inf neg, nsign + n1) else none
  match s with
  | [] => none
  | c :: t =>
    if c = '+' then infinityAfter false 1 t
    else if c = '-' then infinityAfter true 1 t
    else if c = 'i' ∨ c = 'I' then infinityAfter false 0 (c :: t)
    else if c = 'n' ∨ c = 'N' then
      if commonPrefixLenIgnoreCase (c :: t) "nan".toList = 3 then some (F64.nan, 3) else none
    else none

/-- The running state of the digit loop of `strconv.readFloat`. The mantissa
keeps every digit: Go keeps the first 19 (16 in base 16) with a flag for the
dropped ones and then rounds as if it had them all. -/
structure ReadState where
  base : Nat
  sawdot : Bool
  sawdigits : Bool
  nd : Nat
  dp : Int
  mantissa : Nat
  underscores : Bool
  deriving Repr, DecidableEq

/-- The digit loop of `strconv.readFloat`: underscores are skipped and
remembered, one `.` fixes the decimal point, leading zeros only move it, and
the loop stops at the first character that is none of these. -/
def readDigits : ReadState → List Char → ReadState × List Char
  | st, [] => (st, [])
  | st, c :: cs =>
    if c = '_' then readDigits { st with underscores := true } cs
    else if c = '.' then
      if st.sawdot then (st, c :: cs)
      else readDigits { st with sawdot := true, dp := st.nd } cs
    else if '0' ≤ c ∧ c ≤ '9' then
      if c = '0' ∧ st.nd = 0 then
        readDigits { st with sawdigits := true, dp := st.dp - 1 } cs
      else
        readDigits { st with sawdigits := true, nd := st.nd + 1,
                             mantissa := st.mantissa * st.base + digitVal c } cs
    else if st.base = 16 ∧ 'a'.toNat ≤ lowerCode c ∧ lowerCode c ≤ 'f'.toNat then
      readDigits { st with sawdigits := true, nd := st.nd + 1,
                           mantissa := st.mantissa * 16 + (lowerCode c - 'a'.toNat + 10) } cs
    else (st, c :: cs)

/-- The exponent digit loop of `strconv.readFloat`: digits and underscores,
the value no longer growing once it has reached 10000. Returns the value,
whether an underscore was seen, and the rest. -/
def readExpDigits : Nat → Bool → List Char → Nat × Bool × List Char
  | e, us, [] => (e, us, [])
  | e, us, c :: cs =>
    if c = '_' then readExpDigits e true cs
    else if '0' ≤ c ∧ c ≤ '9' then
      readExpDigits (if e < 10000 then e * 10 + digitVal c else e) us cs
    else (e, us, c :: cs)

/-- Go `strconv.underscoreOK`, the scan of the number proper: `last` is `0`
after a digit, `1` after an underscore, `2` after anything else (`3` at the
start). -/
def underscoreScan (hex : Bool) : Nat → List Char → Bool
  | last, [] => last != 1
  | last, c :: cs =>
    if ('0' ≤ c ∧ c ≤ '9') ∨ (hex ∧ 'a'.toNat ≤ lowerCode c ∧ lowerCode c ≤ 'f'.toNat) then
      underscoreScan hex 0 cs
    else if c = '_' then
      if last != 0 then false else underscoreScan hex 1 cs
    else if last = 1 then false
    else underscoreScan hex 2 cs

/-- Go `strconv.underscoreOK`: underscores may stand only between digits, or
between a base marker and a digit. -/
def underscoreOK (s : List Char) : Bool :=
  let s1 := match s with
    | c :: t => if c = '-' ∨ c = '+' then t else s
    | [] => s
  match s1 with
  | c0 :: c1 :: t =>
    if c0 = '0' ∧ (lowerCode c1 = 'b'.toNat ∨ lowerCode c1 = 'o'.toNat ∨ lowerCode c1 = 'x'.toNat) then
      underscoreScan (lowerCode c1 == 'x'.toNat) 0 t
    else underscoreScan false 3 s1
  | _ => underscoreScan false 3 s1

/-- What `strconv.readFloat` hands over: the number is
`(-1)^neg * mantissa * 10^exp`, or `(-1)^neg * mantissa * 2^exp` when `hex`. -/
structure ReadFloat where
  mantissa : Nat
  exp : Int
  neg : Bool
  hex : Bool
  rest : List Char
  deriving Repr, DecidableEq

/-- Go `strconv.readFloat`: optional sign, optional `0x`, digits with at most
one point, optional exponent (`e`, or a mandatory `p` in base 16). `none` is
`ok = false`; `rest` is the input from index `i` on. -/
def readFloat (s : List Char) : Option ReadFloat :=
  match s with
  | [] => none
  | c :: t =>
    let neg : Bool := c == '-'
    let s1 : List Char := if c = '+' ∨ c = '-' then t else s
    let hex : Bool := match s1 with
      | c0 :: c1 :: _ :: _ => c0 == '0' && lowerCode c1 == 'x'.toNat
      | _ => false
    let s2 : List Char := if hex then s1.drop 2 else s1
    let base : Nat := if hex then 16 else 10
    let (st, s3) := readDigits ⟨base, false, false, 0, 0, 0, false⟩ s2
    if !st.sawdigits then none
    else
      let dp0 : Int := if st.sawdot then st.dp else st.nd
      let dp1 : Int := if hex then dp0 * 4 else dp0
      let ndMant : Int := if hex then (st.nd : Int) * 4 else st.nd
      let expChar : Nat := if hex then 'p'.toNat else 'e'.toNat
      let finish (dp : Int) (us : Bool) (rest : List Char) : Option ReadFloat :=
        if us && !underscoreOK (s.take (s.length - rest.length)) then none
        else some ⟨st.mantissa, if st.mantissa = 0 then 0 else dp - ndMant, neg, hex, rest⟩
      match s3 with
      | x :: s4 =>
        if lowerCode x = expChar then
          match s4 with
          | [] => none
          | y :: s5 =>
            let esign : Int := if y = '-' then -1 else 1
            let s6 : List Char := if y = '+' ∨ y = '-' then s5 else s4
            match s6 with
            | [] => none
            | z :: _ =>
              if z < '0' ∨ '9' < z then none
              else
                let (e, us, rest) := readExpDigits 0 st.underscores s6
                finish (dp1 + (e : Int) * esign) us rest
        else if hex then none
        else finish dp1 st.underscores s3
      | [] => if hex then none else finish dp1 st.underscores s3

/-- Go `strconv.ParseFloat(s, 64)`: the nearest `float64` to the decimal or
hexadecimal literal `s`, or a special value; a syntax error when `s` is not
entirely such a literal, a range error when the value rounds to an infinity. -/
def parseFloat (s : String) : Except NumError F64 :=
  match special s.toList with
  | some (val, n) => if n != s.toList.length then .error .ErrSyntax else .ok val
  | none =>
    match readFloat s.toList with
    | none => .error .ErrSyntax
    | some r =>
      if r.rest.length != 0 then .error .ErrSyntax
      else
        let f := if r.hex then F64.ofDyadic r.neg r.mantissa r.exp
                 else F64.ofDecimal r.neg r.mantissa r.exp
        match f with
        | .inf _ => .error .ErrRange
        | _ => .ok f

/-! ## The receipt types -/

/-- Modelled from the spec: the `Item` record of section 3 (its Go declaration
is generated code outside the sources): a free-form description and a price,
both text. -/
structure Item where
  ShortDescription : String
  Price : String
  deriving Repr, DecidableEq

/-- Go `openapiTypes.Date`, a `time.Time` holding a calendar date; the program
reads it through `Day()` only. -/
structure Date where
  year : Int
  month : Nat
  day : Nat
  deriving Repr, DecidableEq

/-- Go `date.Day()`. -/
def Date.Day (date : Date) : Nat := date.day

/-- Modelled from the spec: the `Receipt` record of section 3 (its Go
declaration is generated code outside the sources). -/
structure Receipt where
  Retailer : String
  PurchaseDate : Date
  PurchaseTime : String
  Total : String
  Items : List Item
  deriving Repr, DecidableEq

/-! ## The scoring rules (`impl.go`) -/

/-- The range table built in `retailerPoints`: digits, upper case, lower case. -/
def myRT : RangeTable :=
  { R16 := [⟨0x0030, 0x0039, 1⟩, ⟨0x0041, 0x005a, 1⟩, ⟨0x0061, 0x007a, 1⟩],
    LatinOffset := 0 }

/-- The points for the retailer name: `points++` for every rune of the name
that is in `myRT`. -/
def retailerPoints (retailer : String) : Nat :=
  retailer.toList.foldl (fun points i => if unicodeIn i myRT then addU64 points 1 else points) 0

/-- The `float64` constant `0.50`. -/
def const_0_50 : F64 := F64.ofDecimal false 50 (-2)

/-- The `float64` constant `0.25`. -/
def const_0_25 : F64 := F64.ofDecimal false 25 (-2)

/-- The `float64` constant `0.2`. -/
def const_0_2 : F64 := F64.ofDecimal false 2 (-1)

/-- The points for the purchase total: nothing when it does not parse, else 50
when `math.Mod(totalFloat, 0.50) == 0` plus 25 when
`math.Mod(totalFloat, 0.25) == 0`. -/
def purchaseTotalPoints (total : String) : Nat :=
  match parseFloat total with
  | .error _ => 0
  | .ok totalFloat =>
    let points := 0
    let points := if (mathMod totalFloat const_0_50).eq F64.zero then addU64 points 50 else points
    let points := if (mathMod totalFloat const_0_25).eq F64.zero then addU64 points 25 else points
    points

/-- The points for the number of items: `uint64((len(items) / 2) * 5)`. -/
def itemCountPoints (items : List Item) : Nat :=
  wrap64 ((items.length / 2) * 5)

/-- The points for one item: when the byte length of the description trimmed
of spaces is a multiple of 3, `uint64(math.Ceil(p * 0.2))` for the parsed price
`p`, and nothing when the price does not parse; nothing otherwise. -/
def descriptionPoints (oor : F64 → Nat) (item : Item) : Nat :=
  let tLen := goLen (stringsTrimSpace item.ShortDescription)
  if tLen % 3 = 0 then
    match parseFloat item.Price with
    | .error _ => 0
    | .ok p => toUint64 oor (mathCeil (F64.mul p const_0_2))
  else 0

/-- The points for the purchase date: 6 when `date.Day() % 2 == 1`. -/
def datePoints (date : Date) : Nat :=
  let points := 0
  let purchaseDay := date.Day
  if purchaseDay % 2 = 1 then addU64 points 6 else points

/-- The points for the time of day: nothing when the time does not parse, else
10 when `hour < 16` and `(hour == 14 && min > 0) || hour > 14`. -/
def timeOfDayPoints (purchaseTimeStr : String) : Nat :=
  match timeParseHHMM purchaseTimeStr with
  | none => 0
  | some purchaseTime =>
    let points := 0
    let purchaseTimeHour := purchaseTime.hour
    let purchaseTimeMin := purchaseTime.minute
    if purchaseTimeHour < 16 then
      if (purchaseTimeHour = 14 ∧ purchaseTimeMin > 0) ∨ purchaseTimeHour > 14 then
        addU64 points 10
      else points
    else points

/-- The total for a receipt: the six rules added up in `uint64`, the description
rule once per item in the `range` loop. -/
def calculatePoints (oor : F64 → Nat) (receipt : Receipt) : Nat :=
  let points := 0
  let points := addU64 points (retailerPoints receipt.Retailer)
  let points := addU64 points (purchaseTotalPoints receipt.Total)
  let points := addU64 points (itemCountPoints receipt.Items)
  let points := receipt.Items.foldl (fun points v => addU64 points (descriptionPoints oor v)) points
  let points := addU64 points (datePoints receipt.PurchaseDate)
  let points := addU64 points (timeOfDayPoints receipt.PurchaseTime)
  points

/-! ## Notions the specification uses -/

/-- The characters the retailer rule is said to count: `A`-`Z`, `a`-`z`, `0`-`9`. -/
def isAsciiAlnum (c : Char) : Bool :=
  (decide ('A' ≤ c) && decide (c ≤ 'Z')) || (decide ('a' ≤ c) && decide (c ≤ 'z'))
    || (decide ('0' ≤ c) && decide (c ≤ '9'))

/-- A finite value that is an exact integer multiple of the rational `q`. -/
def F64.isMultipleOf (v : F64) (q : ℚ) : Bool :=
  match v.toRat with
  | some x => (x / q).isInt
  | none => false

/-! ## The receipts of `impl_test.go` -/

/-- The `docExample1` receipt of `Test_calculatePoints`: five items at Target. -/
def docExample1 : Receipt :=
  { Items := [⟨"Mountain Dew 12PK", "6.49"⟩, ⟨"Emils Cheese Pizza", "12.25"⟩,
      ⟨"Knorr Creamy Chicken", "1.26"⟩, ⟨"Doritos Nacho Cheese", "3.35"⟩,
      ⟨"   Klarbrunn 12-PK 12 FL OZ  ", "12.00"⟩],
    PurchaseDate := ⟨2022, 1, 1⟩,
    PurchaseTime := "13:01",
    Retailer := "Target",
    Total := "35.35" }

/-- The `docExample2` receipt of `Test_calculatePoints`: four Gatorades at M&M Corner Market. -/
def docExample2 : Receipt :=
  { Items := [⟨"Gatorade", "2.25"⟩, ⟨"Gatorade", "2.25"⟩, ⟨"Gatorade", "2.25"⟩,
      ⟨"Gatorade", "2.25"⟩],
    PurchaseDate := ⟨2022, 3, 20⟩,
    PurchaseTime := "14:33",
    Retailer := "M&M Corner Market",
    Total := "9.00" }

/-- The `simple` receipt of `Test_calculatePoints`. -/
def simpleReceipt : Receipt :=
  { Items := [⟨"Pepsi - 12-oz", "1.25"⟩],
    PurchaseDate := ⟨2022, 1, 2⟩,
    PurchaseTime := "13:13",
    Retailer := "Target",
    Total := "1.25" }

/-- The `morning` receipt of `Test_calculatePoints`. -/
def morningReceipt : Receipt :=
  { Items := [⟨"Pepsi - 12-oz", "1.25"⟩, ⟨"Dasani", "1.40"⟩],
    PurchaseDate := ⟨2022, 1, 2⟩,
    PurchaseTime := "08:13",
    Retailer := "Walgreens",
    Total := "2.65" }

/-! ## `github.com/google/uuid` -/

/-- Go `uuid.UUID`, an array of 16 bytes. -/
structure UUID where
  b0 : Fin 256
  b1 : Fin 256
  b2 : Fin 256
  b3 : Fin 256
  b4 : Fin 256
  b5 : Fin 256
  b6 : Fin 256
  b7 : Fin 256
  b8 : Fin 256
  b9 : Fin 256
  b10 : Fin 256
  b11 : Fin 256
  b12 : Fin 256
  b13 : Fin 256
  b14 : Fin 256
  b15 : Fin 256
  deriving Repr, DecidableEq

/-- The lower-case hexadecimal digit of a value below 16 (`hex.Encode`). -/
def hexDigit (n : Nat) : Nat := if n < 10 then 48 + n else 87 + n

/-- Go `hex.Encode` of one byte: two lower-case digits. -/
def hexByte (b : Fin 256) : List Nat := [hexDigit (b.val / 16), hexDigit (b.val % 16)]

/-- Go `uuid.String()`, as bytes: `xxxxxxxx-xxxx-xxxx-xxxx-xxxxxxxxxxxx`. -/
def uuidString (u : UUID) : List Nat :=
  hexByte u.b0 ++ hexByte u.b1 ++ hexByte u.b2 ++ hexByte u.b3 ++ [45]
    ++ hexByte u.b4 ++ hexByte u.b5 ++ [45]
    ++ hexByte u.b6 ++ hexByte u.b7 ++ [45]
    ++ hexByte u.b8 ++ hexByte u.b9 ++ [45]
    ++ hexByte u.b10 ++ hexByte u.b11 ++ hexByte u.b12 ++ hexByte u.b13
    ++ hexByte u.b14 ++ hexByte u.b15

/-- The table `xvalues` of the package: the value of a hexadecimal digit, 255
for any other byte. -/
def xvalue (c : Nat) : Nat :=
  if 48 ≤ c ∧ c ≤ 57 then c - 48
  else if 65 ≤ c ∧ c ≤ 70 then c - 55
  else if 97 ≤ c ∧ c ≤ 102 then c - 87
  else 255

/-- Go `uuid.xtob`: the byte written by two hexadecimal digits, `none` when one
of them is not a digit. -/
def xtob (x1 x2 : Nat) : Option (Fin 256) :=
  if xvalue x1 ≠ 255 ∧ xvalue x2 ≠ 255 then some (Fin.ofNat (xvalue x1 * 16 + xvalue x2))
  else none

/-- The byte pair at offset `x` of `s`, decoded. -/
def xtobAt (s : List Nat) (x : Nat) : Option (Fin 256) :=
  xtob (s.getD x 0) (s.getD (x + 1) 0)

/-- All the values of a list of options, when none is missing. -/
def allSome : List (Option (Fin 256)) → Option (List (Fin 256))
  | [] => some []
  | none :: _ => none
  | some b :: rest =>
    match allSome rest with
    | none => none
    | some bs => some (b :: bs)

/-- The array of 16 bytes with the given elements. -/
def uuidOfBytes : List (Fin 256) → Option UUID
  | [b0, b1, b2, b3, b4, b5, b6, b7, b8, b9, b10, b11, b12, b13, b14, b15] =>
    some ⟨b0, b1, b2, b3, b4, b5, b6, b7, b8, b9, b10, b11, b12, b13, b14, b15⟩
  | _ => none

/-- The tail of `uuid.Parse`: `s` holds at least 36 bytes and must read
`xxxxxxxx-xxxx-xxxx-xxxx-xxxxxxxxxxxx`; byte `i` of the result is written at
the `i`-th of the 16 offsets. -/
def uuidParseDashed (s : List Nat) : Option UUID :=
  if s.getD 8 0 ≠ 45 ∨ s.getD 13 0 ≠ 45 ∨ s.getD 18 0 ≠ 45 ∨ s.getD 23 0 ≠ 45 then none
  else
    match allSome ([0, 2, 4, 6, 9, 11, 14, 16, 19, 21, 24, 26, 28, 30, 32, 34].map (xtobAt s)) with
    | none => none
    | some bs => uuidOfBytes bs

/-- The 32-digit branch of `uuid.Parse`: byte `i` from the digits `2i`, `2i+1`. -/
def uuidParseRaw (s : List Nat) : Option UUID :=
  match allSome ((List.range 16).map (fun i => xtobAt s (i * 2))) with
  | none => none
  | some bs => uuidOfBytes bs

/-- An ASCII upper-case letter lowered, any other byte unchanged. -/
def lowerAscii (c : Nat) : Nat := if 65 ≤ c ∧ c ≤ 90 then c + 32 else c

/-- Go `uuid.Parse` on the bytes of a string: by length, the dashed form (36),
the same after `urn:uuid:` in any case (45), the same between two bytes that
are not looked at (38), or 32 digits; `none` is a non-nil error. -/
def uuidParse (s : List Nat) : Option UUID :=
  if s.length = 36 then uuidParseDashed s
  else if s.length = 45 then
    if (s.take 9).map lowerAscii = [117, 114, 110, 58, 117, 117, 105, 100, 58] then
      uuidParseDashed (s.drop 9)
    else none
  else if s.length = 38 then uuidParseDashed (s.drop 1)
  else if s.length = 32 then uuidParseRaw s
  else none

/-- Go `uuid.NewRandom`: 16 bytes from the random source (`none` when reading it
fails), stamped with version 4 and the RFC 4122 variant. -/
def uuidNewRandom (rand : Option UUID) : Option UUID :=
  match rand with
  | none => none
  | some u =>
    some { u with b6 := Fin.ofNat (u.b6.val % 16 + 64), b8 := Fin.ofNat (u.b8.val % 64 + 128) }

/-! ## The HTTP handlers (`impl.go`) -/

/-- The package variable `pointsMap`, a Go `map[uuid.UUID]uint64`. -/
abbrev Store := UUID → Option Nat

/-- The initial `pointsMap`: the empty map. -/
def Store.empty : Store := fun _ => none

/-- Go `pointsMap[key] = points`. -/
def Store.set (pointsMap : Store) (key : UUID) (points : Nat) : Store :=
  fun k => if k = key then some points else pointsMap k

/-- What a handler leaves in the `http.ResponseWriter`: the status code and
the bytes written. -/
structure Response where
  status : Nat
  body : List Nat
  deriving Repr, DecidableEq

/-- The bytes of an ASCII string. -/
def asciiBytes (s : String) : List Nat := s.toList.map Char.toNat

/-- Go `json.Marshal` of the response `GetReceiptsIDPoints` holding `points`,
followed by a newline. -/
def pointsJSON (points : Nat) : List Nat :=
  asciiBytes "\x7b\"points\":" ++ asciiBytes (Nat.repr points) ++ asciiBytes "\x7d\n"

/-- Go `json.Marshal` of the response `PostReceiptsProcessResponse` holding
`id.String()`, followed by a newline. -/
def idJSON (id : UUID) : List Nat :=
  asciiBytes "\x7b\"id\":\"" ++ uuidString id ++ asciiBytes "\"\x7d\n"

/-- The handler `GetReceiptsIdPoints`: 400 when the identifier does not parse,
404 when it is not in `pointsMap`, else 200 with the points as JSON. Returns the
response and `pointsMap` after the call. (`json.Marshal` cannot fail on this
response type, so the 500 branch is never taken.) -/
def GetReceiptsIdPoints (pointsMap : Store) (reqReceiptId : List Nat) : Response × Store :=
  match uuidParse reqReceiptId with
  | none => (⟨400, []⟩, pointsMap)
  | some receiptUUID =>
    match pointsMap receiptUUID with
    | none => (⟨404, []⟩, pointsMap)
    | some points => (⟨200, pointsJSON points⟩, pointsMap)

/-- The handler `PostReceiptsProcess`: 400 when the body does not decode as a
receipt (`decode` is `json.Decoder.Decode` into a `Receipt`), 500 when
`uuid.NewRandom` fails, else the points are stored under the new identifier
and the answer is 200 with the identifier as JSON. -/
def PostReceiptsProcess (decode : List Nat → Option Receipt) (oor : F64 → Nat)
    (pointsMap : Store) (requestBody : List Nat) (rand : Option UUID) : Response × Store :=
  match decode requestBody with
  | none => (⟨400, []⟩, pointsMap)
  | some receipt =>
    let points := calculatePoints oor receipt
    match uuidNewRandom rand with
    | none => (⟨500, []⟩, pointsMap)
    | some receiptUUID =>
      (⟨200, idJSON receiptUUID⟩, pointsMap.set receiptUUID points)

/-- One request to the server: a submission (its body, and what the random
source yields for it) or a lookup. -/
inductive Op where
  | submit (requestBody : List Nat) (rand : Option UUID) : Op
  | lookup (reqReceiptId : List Nat) : Op
  deriving Repr, DecidableEq

/-- The store after one request. -/
def stepStore (decode : List Nat → Option Receipt) (oor : F64 → Nat) (pointsMap : Store) :
    Op → Store
  | .submit requestBody rand => (PostReceiptsProcess decode oor pointsMap requestBody rand).2
  | .lookup reqReceiptId => (GetReceiptsIdPoints pointsMap reqReceiptId).2

/-- The store after a sequence of requests, served one after the other. -/
def runStore (decode : List Nat → Option Receipt) (oor : F64 → Nat) (pointsMap : Store)
    (ops : List Op) : Store :=
  ops.foldl (stepStore decode oor) pointsMap

/-- The identifier a request stores under, if it stores anything. -/
def Op.stored (decode : List Nat → Option Receipt) : Op → Option UUID
  | .submit requestBody rand =>
    match decode requestBody with
    | none => none
    | some _ => uuidNewRandom rand
  | .lookup _ => none

/-! ## Inputs used as examples -/

/-- A receipt with two items priced ninety quintillion each. -/
def hugePricesReceipt : Receipt :=
  { Items := [⟨"abc", "90000000000000000000.00"⟩, ⟨"abc", "90000000000000000000.00"⟩],
    PurchaseDate := ⟨2022, 1, 2⟩,
    PurchaseTime := "08:13",
    Retailer := "",
    Total := "0.10" }

/-- An identifier: the bytes `0, 1, ..., 15` stamped by `uuidNewRandom`. -/
def sampleUUID : UUID :=
  ⟨0, 1, 2, 3, 4, 5, 70, 7, 136, 9, 10, 11, 12, 13, 14, 15⟩

/-- A stand-in for the JSON decoder: the body `[1]` is the `docExample1` receipt,
the body `[2]` the `simple` receipt, any other body does not decode. -/
def sampleDecode (requestBody : List Nat) : Option Receipt :=
  if requestBody = [1] then some docExample1
  else if requestBody = [2] then some simpleReceipt
  else none

/-! ## Reading the answers back -/

/-- The number written by decimal digit bytes, read after the digits of `acc`. -/
def readDecimal (acc : Nat) : List Nat → Nat
  | [] => acc
  | c :: cs => readDecimal (acc * 10 + (c - 48)) cs

/-- Identifiers are never reused: every submission of the sequence, when it is
served, stores under an identifier that is not yet in the store. -/
def freshRun (decode : List Nat → Option Receipt) (oor : F64 → Nat) : Store → List Op → Bool
  | _, [] => true
  | pointsMap, op :: ops =>
    (match Op.stored decode op with
      | some id => (pointsMap id).isNone
      | none => true)
    && freshRun decode oor (stepStore decode oor pointsMap op) ops

/-- A second identifier. -/
def sampleUUID2 : UUID :=
  ⟨255, 1, 2, 3, 4, 5, 70, 7, 136, 9, 10, 11, 12, 13, 14, 15⟩

/-- The exact sum of the six contributions of a receipt, as a natural number. -/
def sumOfRules (oor : F64 → Nat) (receipt : Receipt) : Nat :=
  retailerPoints receipt.Retailer + purchaseTotalPoints receipt.Total
    + itemCountPoints receipt.Items
    + (receipt.Items.map (descriptionPoints oor)).sum
    + datePoints receipt.PurchaseDate + timeOfDayPoints receipt.PurchaseTime

/-- The exact sum of the contributions of a receipt other than the one of its
total. -/
def sumOfOtherRules (oor : F64 → Nat) (receipt : Receipt) : Nat :=
  retailerPoints receipt.Retailer + itemCountPoints receipt.Items
    + (receipt.Items.map (descriptionPoints oor)).sum
    + datePoints receipt.PurchaseDate + timeOfDayPoints receipt.PurchaseTime

/-- The receipt with two items priced ninety quintillion each and a total that
does not parse. -/
def hugePricesBadTotal : Receipt :=
  { hugePricesReceipt with Total := "NotANumber" }

/-! ## Helper lemmas: `uint64` sums -/

theorem wrap64_wrap64 (n : Nat) : wrap64 (wrap64 n) = wrap64 n := by
  unfold wrap64
  exact Nat.mod_mod _ _

theorem addU64_wrap64_left (a b : Nat) : addU64 (wrap64 a) b = wrap64 (a + b) := by
  unfold addU64 wrap64
  exact Nat.mod_add_mod a uint64Mod b

theorem wrap64_of_lt {n : Nat} (h : n < 2 ^ 64) : wrap64 n = n := by
  unfold wrap64 uint64Mod
  exact Nat.mod_eq_of_lt h

/-- A `range` loop that adds `f v` to a wrapped accumulator adds the sum of the
`f v`, wrapped once. -/
theorem foldl_addU64 {α : Type} (f : α → Nat) (l : List α) (a : Nat) :
    l.foldl (fun points v => addU64 points (f v)) (wrap64 a) = wrap64 (a + (l.map f).sum) := by
  induction l generalizing a with
  | nil => simp
  | cons x xs ih =>
    simp only [List.foldl_cons, List.map_cons, List.sum_cons]
    rw [addU64_wrap64_left, ih, Nat.add_assoc]

/-! ## Claims -/

/-- C1 (as amended): for every receipt, `calculatePoints` is the sum of the
retailer points, the purchase-total points, the item-count points, the
description points of every item (added up over the items, not overwritten by
the last one), the date points and the time-of-day points, reduced modulo
`2^64`; it is that sum itself whenever the sum is below `2^64`. -/
theorem calculatePoints_eq_sum (oor : F64 → Nat) (receipt : Receipt) :
    calculatePoints oor receipt = sumOfRules oor receipt % 2 ^ 64 ∧
    (sumOfRules oor receipt < 2 ^ 64 →
      calculatePoints oor receipt = sumOfRules oor receipt) := by
  have hmod : calculatePoints oor receipt = sumOfRules oor receipt % 2 ^ 64 := by
    unfold calculatePoints sumOfRules
    simp only []
    have h0 : addU64 0 (retailerPoints receipt.Retailer)
        = wrap64 (retailerPoints receipt.Retailer) := by
      simp [addU64]
    rw [h0, addU64_wrap64_left, addU64_wrap64_left, foldl_addU64, addU64_wrap64_left,
      addU64_wrap64_left]
    rfl
  exact ⟨hmod, fun hlt => by rw [hmod, Nat.mod_eq_of_lt hlt]⟩

/-! ## Helper lemmas: the retailer rule -/

theorem char_le_iff (a b : Char) : a ≤ b ↔ a.toNat ≤ b.toNat := by
  rfl

theorem unicodeIn_myRT (c : Char) : unicodeIn c myRT = isAsciiAlnum c := by
  have hA : 'A'.toNat = 65 := by decide
  have hZ : 'Z'.toNat = 90 := by decide
  have ha : 'a'.toNat = 97 := by decide
  have hz : 'z'.toNat = 122 := by decide
  have h0 : '0'.toNat = 48 := by decide
  have h9 : '9'.toNat = 57 := by decide
  simp only [isAsciiAlnum, char_le_iff, hA, hZ, ha, hz, h0, h9,
    unicodeIn, unicodeIs, myRT, List.getLast?, List.getLast, is16]
  generalize c.toNat = n
  by_cases h1 : n ≤ 122
  · by_cases h2 : n < 48
    · have : ¬ 48 ≤ n := by omega
      have : ¬ 65 ≤ n := by omega
      have : ¬ 97 ≤ n := by omega
      simp [*]
    · by_cases h3 : n ≤ 57
      · have : 48 ≤ n := by omega
        simp [*]
      · by_cases h4 : n < 65
        · have : ¬ 65 ≤ n := by omega
          have : ¬ 97 ≤ n := by omega
          simp [*]
        · by_cases h5 : n ≤ 90
          · have : 65 ≤ n := by omega
            simp [*]
          · by_cases h6 : n < 97
            · have : ¬ 97 ≤ n := by omega
              simp [*]
            · have : 97 ≤ n := by omega
              simp [*]
  · have : ¬ n ≤ 90 := by omega
    have : ¬ n ≤ 57 := by omega
    simp [*]

theorem retailer_foldl (l : List Char) (a : Nat) :
    l.foldl (fun points i => if unicodeIn i myRT then addU64 points 1 else points) (wrap64 a)
      = wrap64 (a + l.countP isAsciiAlnum) := by
  induction l generalizing a with
  | nil => simp
  | cons x xs ih =>
    simp only [List.foldl_cons, List.countP_cons, unicodeIn_myRT]
    cases hx : isAsciiAlnum x
    · simpa [unicodeIn_myRT] using ih a
    · simp only [if_true, addU64_wrap64_left]
      have := ih (a + 1)
      simp only [unicodeIn_myRT] at this
      rw [this]
      congr 1
      omega

/-- C2: for every retailer string (of a length a Go string can have),
`retailerPoints` is exactly the number of its characters in `A`-`Z`, `a`-`z`
or `0`-`9`; no other character counts. -/
theorem retailerPoints_eq_count (retailer : String) (hlen : retailer.length < 2 ^ 64) :
    retailerPoints retailer = retailer.toList.countP isAsciiAlnum := by
  unfold retailerPoints
  have h := retailer_foldl retailer.toList 0
  have h0 : wrap64 0 = 0 := by decide
  rw [h0, Nat.zero_add] at h
  rw [h]
  apply wrap64_of_lt
  exact lt_of_le_of_lt (List.countP_le_length isAsciiAlnum) hlen

/-- C2, on the documented retailers: `Target` gives 6 and `M&M Corner Market`
gives 14. -/
theorem retailerPoints_eq_count_witness :
    ("Target".length < 2 ^ 64 ∧ retailerPoints "Target" = 6) ∧
    ("M&M Corner Market".length < 2 ^ 64 ∧ retailerPoints "M&M Corner Market" = 14) :=
  ⟨⟨by decide, (retailerPoints_eq_count "Target" (by decide)).trans (by decide)⟩,
   ⟨by decide, (retailerPoints_eq_count "M&M Corner Market" (by decide)).trans (by decide)⟩⟩

/-! ## Helper lemmas: `math.Mod` -/

theorem rat_isInt_iff (x : ℚ) : x.isInt = true ↔ ∃ k : ℤ, x = k := by
  constructor
  · intro h
    refine ⟨x.num, ?_⟩
    have hd : x.den = 1 := by simpa [Rat.isInt] using h
    exact (Rat.den_eq_one_iff x).1 hd |>.symm
  · rintro ⟨k, rfl⟩
    simp [Rat.isInt]

theorem zpow_split (e e2 : Int) :
    (2 : ℚ) ^ e = (2 : ℚ) ^ (e - min e e2).toNat * (2 : ℚ) ^ (min e e2) := by
  have h : e = ((e - min e e2).toNat : Int) + min e e2 := by
    have : 0 ≤ e - min e e2 := by omega
    rw [Int.toNat_of_nonneg this]; ring
  conv_lhs => rw [h]
  rw [zpow_add₀ (by norm_num : (2 : ℚ) ≠ 0), zpow_natCast]

theorem F64_eq_zero_fin (neg : Bool) (r : Nat) (e : Int) :
    (F64.fin neg r e).eq F64.zero = decide (r = 0) := by
  simp only [F64.eq, F64.zero]
  by_cases hr : r = 0
  · simp [hr]
  · simp [hr]

theorem mathMod_eq_zero_iff (neg : Bool) (m : Nat) (e : Int) (m2 : Nat) (e2 : Int)
    (hm2 : m2 ≠ 0) :
    (mathMod (.fin neg m e) (.fin false m2 e2)).eq F64.zero = true ↔
      ∃ k : ℤ, ((if neg then -1 else 1) * (m : ℚ) * (2 : ℚ) ^ e) = k * ((m2 : ℚ) * (2 : ℚ) ^ e2) := by
  simp only [mathMod, hm2, if_false, F64_eq_zero_fin, decide_eq_true_eq]
  rw [zpow_split e e2, zpow_split e2 e, min_comm e2 e]
  generalize (e - min e e2).toNat = a
  generalize (e2 - min e e2).toNat = b
  have hz : (2 : ℚ) ^ (min e e2) ≠ 0 := zpow_ne_zero _ (by norm_num)
  generalize (2 : ℚ) ^ (min e e2) = z at hz
  constructor
  · intro h
    obtain ⟨c, hc⟩ := Nat.dvd_of_mod_eq_zero h
    refine ⟨(if neg then -1 else 1) * (c : ℤ), ?_⟩
    have hq : ((m : ℚ) * 2 ^ a) = ((m2 : ℚ) * 2 ^ b) * c := by exact_mod_cast hc
    cases neg <;> simp <;> linear_combination (z) * hq
  · rintro ⟨k, hk⟩
    have h1 : (if neg then -1 else 1) * ((m : ℚ) * 2 ^ a) = k * ((m2 : ℚ) * 2 ^ b) := by
      apply mul_right_cancel₀ hz
      linear_combination hk
    have h2 : ((if neg then -1 else 1) * ((m * 2 ^ a : ℕ) : ℤ)) = k * ((m2 * 2 ^ b : ℕ) : ℤ) := by
      cases neg <;> simp at h1 ⊢ <;> exact_mod_cast h1
    have h3 : ((m2 * 2 ^ b : ℕ) : ℤ) ∣ ((m * 2 ^ a : ℕ) : ℤ) := by
      cases neg
      · simp only [Bool.false_eq_true, if_false, one_mul] at h2
        exact ⟨k, by rw [h2]; ring⟩
      · simp only [if_true] at h2
        exact ⟨-k, by linarith⟩
    exact Nat.mod_eq_zero_of_dvd (Int.natCast_dvd_natCast.1 h3)

theorem const_0_50_eq : const_0_50 = .fin false (2 ^ 52) (-53) := by decide!

theorem const_0_25_eq : const_0_25 = .fin false (2 ^ 52) (-54) := by decide!

theorem mathMod_const_eq_zero_iff (v : F64) (c : F64) (q : ℚ) (m2 : Nat) (e2 : Int)
    (hc : c = .fin false m2 e2) (hm2 : m2 ≠ 0) (hq : (m2 : ℚ) * (2 : ℚ) ^ e2 = q) :
    (mathMod v c).eq F64.zero = v.isMultipleOf q := by
  have hq0 : q ≠ 0 := by
    rw [← hq]
    exact mul_ne_zero (by exact_mod_cast hm2) (zpow_ne_zero _ (by norm_num))
  subst hc
  cases v with
  | nan => simp [mathMod, F64.eq, F64.isMultipleOf, F64.toRat]
  | inf neg => simp [mathMod, F64.eq, F64.isMultipleOf, F64.toRat]
  | fin neg m e =>
    rw [Bool.eq_iff_iff, mathMod_eq_zero_iff neg m e m2 e2 hm2, hq]
    simp only [F64.isMultipleOf, F64.toRat, rat_isInt_iff]
    constructor
    · rintro ⟨k, hk⟩
      exact ⟨k, by rw [hk]; field_simp⟩
    · rintro ⟨k, hk⟩
      exact ⟨k, by rw [← hk]; field_simp⟩

/-- C3: for every total that parses to a value `v`, `purchaseTotalPoints` is 50
when `v` is an exact multiple of 0.50 (else 0) plus 25 when `v` is an exact
multiple of 0.25 (else 0), the two decided independently. -/
theorem purchaseTotalPoints_eq_bonuses (total : String) (v : F64)
    (hparse : parseFloat total = .ok v) :
    purchaseTotalPoints total =
      (if v.isMultipleOf (1 / 2) then 50 else 0) + (if v.isMultipleOf (1 / 4) then 25 else 0) := by
  unfold purchaseTotalPoints
  rw [hparse]
  simp only []
  rw [mathMod_const_eq_zero_iff v const_0_50 (1 / 2) (2 ^ 52) (-53) const_0_50_eq (by norm_num)
      (by norm_num),
    mathMod_const_eq_zero_iff v const_0_25 (1 / 4) (2 ^ 52) (-54) const_0_25_eq (by norm_num)
      (by norm_num)]
  cases v.isMultipleOf (1 / 2) <;> cases v.isMultipleOf (1 / 4) <;> decide

/-- C3, on the documented totals: `9.00` gives 75, `35.35` gives 0 and `1.25`
gives 25. -/
theorem purchaseTotalPoints_eq_bonuses_witness :
    (parseFloat "9.00" = .ok (.fin false 5066549580791808 (-49)) ∧ purchaseTotalPoints "9.00" = 75) ∧
    (parseFloat "35.35" = .ok (.fin false 4975070213360845 (-47)) ∧ purchaseTotalPoints "35.35" = 0) ∧
    (parseFloat "1.25" = .ok (.fin false 5629499534213120 (-52)) ∧ purchaseTotalPoints "1.25" = 25) :=
  ⟨⟨rfl, (purchaseTotalPoints_eq_bonuses "9.00" (.fin false 5066549580791808 (-49)) (by rfl)).trans
      (by decide!)⟩,
   ⟨rfl, (purchaseTotalPoints_eq_bonuses "35.35" (.fin false 4975070213360845 (-47)) (by rfl)).trans
      (by decide!)⟩,
   ⟨rfl, (purchaseTotalPoints_eq_bonuses "1.25" (.fin false 5629499534213120 (-52)) (by rfl)).trans
      (by decide!)⟩⟩

/-- C4 (the code departs from its own comment): the total `1.50` parses to
one and a half, which is not a whole number of dollars, and yet
`purchaseTotalPoints` includes the 50 points: it returns 75, where a round-dollar
rule gives 25. -/
theorem purchaseTotalPoints_half_dollar :
    parseFloat "1.50" = .ok (.fin false 6755399441055744 (-52)) ∧
    (F64.fin false 6755399441055744 (-52)).toRat = some (3 / 2) ∧
    (F64.fin false 6755399441055744 (-52)).isMultipleOf 1 = false ∧
    purchaseTotalPoints "1.50" = 75 :=
  ⟨by rfl, by decide!, by decide!, by decide!⟩

/-! ## Helper lemmas: `math.Ceil` and the conversion to `uint64` -/

theorem nat_ceil_div (m D : Nat) (hD : 0 < D) :
    ⌈(m : ℚ) / (D : ℚ)⌉ = (((m + D - 1) / D : ℕ) : ℤ) := by
  rw [Int.ceil_eq_iff]
  have hDq : (0 : ℚ) < D := by exact_mod_cast hD
  have h1 : (m + D - 1) / D * D ≤ m + D - 1 := Nat.div_mul_le_self _ _
  have h2 : m + D - 1 < D * ((m + D - 1) / D + 1) := Nat.lt_mul_div_succ (m + D - 1) hD
  generalize (m + D - 1) / D = c at h1 h2
  rw [Nat.mul_add, Nat.mul_one, Nat.mul_comm] at h2
  constructor
  · rw [lt_div_iff₀ hDq]
    have h3 : c * D < m + D := by omega
    have h4 : ((c * D : ℕ) : ℚ) < ((m + D : ℕ) : ℚ) := by exact_mod_cast h3
    push_cast at h4 ⊢
    linarith
  · rw [div_le_iff₀ hDq]
    have h3 : m ≤ c * D := by omega
    exact_mod_cast h3

theorem nat_floor_div (m D : Nat) : ⌊(m : ℚ) / (D : ℚ)⌋ = ((m / D : ℕ) : ℤ) := by
  have h := Rat.floor_intCast_div_natCast (m : ℤ) D
  simpa using h

theorem zpow_neg_toNat (e : Int) (he : e < 0) : (2 : ℚ) ^ e = 1 / (2 : ℚ) ^ (-e).toNat := by
  have h : e = -(((-e).toNat : ℕ) : ℤ) := by
    rw [Int.toNat_of_nonneg (by omega)]; ring
  conv_lhs => rw [h]
  rw [zpow_neg, zpow_natCast, one_div]

theorem zpow_nonneg_toNat (e : Int) (he : 0 ≤ e) : (2 : ℚ) ^ e = (2 : ℚ) ^ e.toNat := by
  conv_lhs => rw [← Int.toNat_of_nonneg he]
  rw [zpow_natCast]

/-- When the ceiling of a finite value is a `uint64`, `uint64(math.Ceil(x))` is
that ceiling, whatever the platform does outside the range. -/
theorem toUint64_mathCeil (oor : F64 → Nat) (x : F64) (q : ℚ) (hx : x.toRat = some q)
    (hlo : 0 ≤ ⌈q⌉) (hhi : ⌈q⌉ < 2 ^ 64) : ((toUint64 oor (mathCeil x) : ℕ) : ℤ) = ⌈q⌉ := by
  cases x with
  | nan => simp [F64.toRat] at hx
  | inf neg => simp [F64.toRat] at hx
  | fin neg m e =>
    simp only [F64.toRat, Option.some.injEq] at hx
    subst hx
    by_cases he : 0 ≤ e
    · -- an integer value
      rw [zpow_nonneg_toNat e he] at hlo hhi ⊢
      simp only [mathCeil, he, if_true, toUint64]
      generalize e.toNat = n at hlo hhi ⊢
      have hval : ((if neg = true then (-1 : ℚ) else 1) * (m : ℚ) * 2 ^ n)
          = (((if neg = true then (-1 : ℤ) else 1) * ((m * 2 ^ n : ℕ) : ℤ) : ℤ) : ℚ) := by
        cases neg <;> simp
      rw [hval, Int.ceil_intCast] at hlo hhi ⊢
      by_cases ht : m * 2 ^ n = 0
      · simp [ht]
      · cases neg
        · simp only [Bool.false_eq_true, if_false, one_mul] at hlo hhi ⊢
          have hlt : ¬ uint64Mod ≤ m * 2 ^ n := by
            unfold uint64Mod
            have : ((m * 2 ^ n : ℕ) : ℤ) < ((2 ^ 64 : ℕ) : ℤ) := by exact_mod_cast hhi
            have := Int.ofNat_lt.1 this
            omega
          simp [ht, hlt]
        · exfalso
          simp only [if_true] at hlo
          have : 0 < ((m * 2 ^ n : ℕ) : ℤ) := by
            exact_mod_cast Nat.pos_of_ne_zero ht
          omega
    · have he2 : e < 0 := by omega
      have hpow : (2 : ℚ) ^ e = 1 / ((2 ^ (-e).toNat : ℕ) : ℚ) := by
        rw [zpow_neg_toNat e he2]; push_cast; rfl
      rw [hpow] at hlo hhi ⊢
      have hD : 0 < 2 ^ (-e).toNat := Nat.pos_of_ne_zero (by positivity)
      simp only [mathCeil, he, if_false]
      generalize 2 ^ (-e).toNat = D at hD hlo hhi ⊢
      cases neg
      · -- positive: the ceiling of `m / D`
        have hval : ((if false = true then (-1 : ℚ) else 1) * (m : ℚ) * (1 / (D : ℚ)))
            = (m : ℚ) / (D : ℚ) := by
          simp [div_eq_mul_inv]
        rw [hval, nat_ceil_div m D hD] at hlo hhi ⊢
        simp only [Bool.false_eq_true, if_false, toUint64, le_refl, if_true, Int.toNat_zero,
          pow_zero, Nat.mul_one, false_or]
        generalize (m + D - 1) / D = c at hhi ⊢
        by_cases hc : c = 0
        · simp [hc]
        · have hlt : ¬ uint64Mod ≤ c := by
            unfold uint64Mod
            have h5 : ((c : ℕ) : ℤ) < ((2 ^ 64 : ℕ) : ℤ) := by exact_mod_cast hhi
            have := Int.ofNat_lt.1 h5
            omega
          simp [hc, hlt]
      · -- negative: minus the floor of `m / D`
        have hval : ((if true = true then (-1 : ℚ) else 1) * (m : ℚ) * (1 / (D : ℚ)))
            = -((m : ℚ) / (D : ℚ)) := by
          simp [div_eq_mul_inv]
        rw [hval, Int.ceil_neg, nat_floor_div m D] at hlo hhi ⊢
        simp only [if_true, toUint64, le_refl, Int.toNat_zero, pow_zero, Nat.mul_one]
        have hz : m / D = 0 := by
          have : (0 : ℤ) ≤ ((m / D : ℕ) : ℤ) := Int.ofNat_nonneg _
          omega
        simp [hz]

/-- C5 (as amended): an item whose trimmed description has a byte length that is
not a multiple of 3 gets 0 whatever its price; when that length is a multiple
of 3 (0 included) and the price parses to `p`, the item gets the ceiling of the
`float64` product `p * 0.2`, provided the product is finite and its ceiling is a
`uint64`, that is between 0 and `2^64 - 1`. -/
theorem descriptionPoints_eq_ceil (oor : F64 → Nat) (item : Item) :
    (goLen (stringsTrimSpace item.ShortDescription) % 3 ≠ 0 → descriptionPoints oor item = 0) ∧
    (∀ (p : F64) (q : ℚ), goLen (stringsTrimSpace item.ShortDescription) % 3 = 0 →
      parseFloat item.Price = .ok p → (F64.mul p const_0_2).toRat = some q →
      0 ≤ ⌈q⌉ → ⌈q⌉ < 2 ^ 64 → ((descriptionPoints oor item : ℕ) : ℤ) = ⌈q⌉) := by
  constructor
  · intro hlen
    simp [descriptionPoints, hlen]
  · intro p q hlen hparse hprod hlo hhi
    simp only [descriptionPoints, hlen, if_true, hparse]
    exact toUint64_mathCeil oor _ q hprod hlo hhi

/-- C5, on the documented items: `Emils Cheese Pizza` at `12.25` gives 3,
`   Klarbrunn 12-PK 12 FL OZ  ` at `12.00` gives 3, `Dasani` at `1.40` gives 1,
and `Gatorade` at `2.25` gives 0; a description of spaces only (trimmed length
0) at `1.40` gives 1; a tab is not trimmed. -/
theorem descriptionPoints_eq_ceil_witness :
    ((descriptionPoints (fun _ => 0) ⟨"Emils Cheese Pizza", "12.25"⟩ : ℕ) : ℤ) = 3 ∧
    ((descriptionPoints (fun _ => 0) ⟨"   Klarbrunn 12-PK 12 FL OZ  ", "12.00"⟩ : ℕ) : ℤ) = 3 ∧
    ((descriptionPoints (fun _ => 0) ⟨"Dasani", "1.40"⟩ : ℕ) : ℤ) = 1 ∧
    descriptionPoints (fun _ => 0) ⟨"Gatorade", "2.25"⟩ = 0 ∧
    ((descriptionPoints (fun _ => 0) ⟨"  ", "1.40"⟩ : ℕ) : ℤ) = 1 ∧
    stringsTrimSpace " \tab  " = ['\t', 'a', 'b'] :=
  ⟨((descriptionPoints_eq_ceil (fun _ => 0) ⟨"Emils Cheese Pizza", "12.25"⟩).2
      (.fin false 6896136929411072 (-49)) (5516909543528858 * 2 ^ (-51 : ℤ))
      (by decide) (by rfl) (by decide!)
      (by norm_num [Int.ceil_nonneg]) (by rw [Int.ceil_lt_iff]; norm_num)).trans
      (by rw [Int.ceil_eq_iff]; norm_num),
   ((descriptionPoints_eq_ceil (fun _ => 0) ⟨"   Klarbrunn 12-PK 12 FL OZ  ", "12.00"⟩).2
      (.fin false 6755399441055744 (-49)) (5404319552844596 * 2 ^ (-51 : ℤ))
      (by decide) (by rfl) (by decide!)
      (by norm_num [Int.ceil_nonneg]) (by rw [Int.ceil_lt_iff]; norm_num)).trans
      (by rw [Int.ceil_eq_iff]; norm_num),
   ((descriptionPoints_eq_ceil (fun _ => 0) ⟨"Dasani", "1.40"⟩).2
      (.fin false 6305039478318694 (-52)) (5044031582654955 * 2 ^ (-54 : ℤ))
      (by decide) (by rfl) (by decide!)
      (by norm_num [Int.ceil_nonneg]) (by rw [Int.ceil_lt_iff]; norm_num)).trans
      (by rw [Int.ceil_eq_iff]; norm_num),
   (descriptionPoints_eq_ceil (fun _ => 0) ⟨"Gatorade", "2.25"⟩).1 (by decide),
   ((descriptionPoints_eq_ceil (fun _ => 0) ⟨"  ", "1.40"⟩).2
      (.fin false 6305039478318694 (-52)) (5044031582654955 * 2 ^ (-54 : ℤ))
      (by decide) (by rfl) (by decide!)
      (by norm_num [Int.ceil_nonneg]) (by rw [Int.ceil_lt_iff]; norm_num)).trans
      (by rw [Int.ceil_eq_iff]; norm_num),
   by decide⟩

/-- C5, as stated, fails for a negative price: for the item `abc` at `-5.00`
the trimmed length 3 is a multiple of 3, the price parses to `-5`, the product
`p * 0.2` is exactly `-1` and so is its ceiling, but `descriptionPoints`
returns a `uint64`, which is never `-1`. -/
theorem descriptionPoints_negative_price :
    goLen (stringsTrimSpace "abc") % 3 = 0 ∧
    parseFloat "-5.00" = .ok (.fin true 5629499534213120 (-50)) ∧
    (F64.mul (.fin true 5629499534213120 (-50)) const_0_2).toRat = some (-1) ∧
    ⌈(-1 : ℚ)⌉ = -1 ∧
    ∀ oor : F64 → Nat, ((descriptionPoints oor ⟨"abc", "-5.00"⟩ : ℕ) : ℤ) ≠ ⌈(-1 : ℚ)⌉ := by
  refine ⟨by decide, by rfl, by decide!, by rw [Int.ceil_eq_iff]; norm_num, ?_⟩
  intro oor h
  rw [show ⌈(-1 : ℚ)⌉ = -1 by rw [Int.ceil_eq_iff]; norm_num] at h
  have := Int.ofNat_nonneg (descriptionPoints oor ⟨"abc", "-5.00"⟩)
  omega

/-- C6: `timeOfDayPoints` is 10 when the string parses as a 24-hour
hour:minute time with (hour 14 and minute above 0) or hour 15, and 0 in every
other case; the condition the code tests is equivalent to that one; and the
documented times give the documented points. -/
theorem timeOfDayPoints_window :
    (∀ s : String, timeOfDayPoints s =
      match timeParseHHMM s with
      | some t => if (t.hour = 14 ∧ 0 < t.minute) ∨ t.hour = 15 then 10 else 0
      | none => 0) ∧
    (∀ hour min : Nat,
      (hour < 16 ∧ ((hour = 14 ∧ min > 0) ∨ hour > 14)) ↔ ((hour = 14 ∧ min > 0) ∨ hour = 15)) ∧
    timeOfDayPoints "14:01" = 10 ∧ timeOfDayPoints "14:33" = 10 ∧
    timeOfDayPoints "14:00" = 0 ∧ timeOfDayPoints "13:59" = 0 ∧
    timeOfDayPoints "16:00" = 0 ∧ timeOfDayPoints "99:99" = 0 ∧
    timeParseHHMM "99:99" = none ∧ timeParseHHMM "14:01" = some ⟨14, 1⟩ := by
  refine ⟨?_, ?_, by decide, by decide, by decide, by decide, by decide, by decide,
    by decide, by decide⟩
  · intro s
    unfold timeOfDayPoints
    cases timeParseHHMM s with
    | none => rfl
    | some t =>
      simp only []
      by_cases h16 : t.hour < 16
      · by_cases hc : (t.hour = 14 ∧ t.minute > 0) ∨ t.hour > 14
        · have hc2 : (t.hour = 14 ∧ 0 < t.minute) ∨ t.hour = 15 := by omega
          simp only [h16, hc, hc2, if_true]
          decide
        · have hc2 : ¬ ((t.hour = 14 ∧ 0 < t.minute) ∨ t.hour = 15) := by omega
          simp only [h16, hc, hc2, if_true, if_false]
      · have hc2 : ¬ ((t.hour = 14 ∧ 0 < t.minute) ∨ t.hour = 15) := by omega
        simp only [h16, hc2, if_false]
  · intro hour min
    omega

/-- C7: for every list of items (of a length a Go slice of items can have),
`itemCountPoints` is five times the number of complete pairs of items. -/
theorem itemCountPoints_eq (items : List Item) (hlen : items.length < 2 ^ 59) :
    itemCountPoints items = 5 * (items.length / 2) := by
  unfold itemCountPoints
  rw [wrap64_of_lt (by omega)]
  omega

/-- C7, on lists of 1, 2, 4 and 5 items: 0, 5, 10 and 10 points. -/
theorem itemCountPoints_eq_witness :
    itemCountPoints simpleReceipt.Items = 0 ∧ itemCountPoints morningReceipt.Items = 5 ∧
    itemCountPoints docExample2.Items = 10 ∧ itemCountPoints docExample1.Items = 10 :=
  ⟨itemCountPoints_eq simpleReceipt.Items (by decide),
   itemCountPoints_eq morningReceipt.Items (by decide),
   itemCountPoints_eq docExample2.Items (by decide),
   itemCountPoints_eq docExample1.Items (by decide)⟩

/-- C8: `datePoints` is 6 when the day of the month is odd and 0 when it is
even, whatever the month and the year; 2022-01-01 gives 6, 2022-01-02 and
2022-03-20 give 0. -/
theorem datePoints_odd_day :
    (∀ date : Date, datePoints date = if Odd date.day then 6 else 0) ∧
    (∀ (y1 y2 : Int) (m1 m2 d : Nat), datePoints ⟨y1, m1, d⟩ = datePoints ⟨y2, m2, d⟩) ∧
    datePoints ⟨2022, 1, 1⟩ = 6 ∧ datePoints ⟨2022, 1, 2⟩ = 0 ∧ datePoints ⟨2022, 3, 20⟩ = 0 := by
  refine ⟨?_, fun _ _ _ _ _ => rfl, by decide, by decide, by decide⟩
  intro date
  unfold datePoints Date.Day
  by_cases h : date.day % 2 = 1
  · have ho : Odd date.day := Nat.odd_iff.2 h
    simp only [h, ho, if_true]
    decide
  · have ho : ¬ Odd date.day := fun ho => h (Nat.odd_iff.1 ho)
    simp only [h, ho, if_false]

set_option maxRecDepth 100000 in
/-- C9: `calculatePoints` gives 28 on the five-item Target receipt, 109 on the
four-Gatorade M&M Corner Market receipt, 31 on the `simple` receipt and 15 on
the `morning` receipt of the tests. -/
theorem calculatePoints_documented (oor : F64 → Nat) :
    calculatePoints oor docExample1 = 28 ∧ calculatePoints oor docExample2 = 109 ∧
    calculatePoints oor simpleReceipt = 31 ∧ calculatePoints oor morningReceipt = 15 :=
  ⟨by rfl, by rfl, by rfl, by rfl⟩

/-- C10 (as amended): a total that does not parse gives no purchase-total
points, an item whose price does not parse gives no description points whatever
its description, and a receipt whose total does not parse still scores the sum
of its other rules, reduced modulo `2^64`: that sum itself whenever it is below
`2^64`. -/
theorem unparsable_contributes_zero (oor : F64 → Nat) (total : String) (item : Item)
    (receipt : Receipt) (e1 e2 e3 : NumError) :
    (parseFloat total = .error e1 → purchaseTotalPoints total = 0) ∧
    (parseFloat item.Price = .error e2 → descriptionPoints oor item = 0) ∧
    (parseFloat receipt.Total = .error e3 →
      calculatePoints oor receipt = sumOfOtherRules oor receipt % 2 ^ 64 ∧
      (sumOfOtherRules oor receipt < 2 ^ 64 →
        calculatePoints oor receipt = sumOfOtherRules oor receipt)) := by
  refine ⟨?_, ?_, ?_⟩
  · intro h
    simp [purchaseTotalPoints, h]
  · intro h
    unfold descriptionPoints
    simp only [h]
    split <;> rfl
  · intro h
    have ht : purchaseTotalPoints receipt.Total = 0 := by simp [purchaseTotalPoints, h]
    have hmod : calculatePoints oor receipt = sumOfOtherRules oor receipt % 2 ^ 64 := by
      unfold calculatePoints sumOfOtherRules
      simp only [ht]
      have h0 : addU64 0 (retailerPoints receipt.Retailer)
          = wrap64 (retailerPoints receipt.Retailer) := by simp [addU64]
      rw [h0, addU64_wrap64_left, addU64_wrap64_left, foldl_addU64, addU64_wrap64_left,
        addU64_wrap64_left]
      rfl
    exact ⟨hmod, fun hlt => by rw [hmod, Nat.mod_eq_of_lt hlt]⟩

/-- C10, on the documented inputs: the total `NotANumber` gives 0, the item
`Dasani` at `1.40.1` gives 0, and the `morning` receipt with the total
`NotANumber` scores 15, the sum of its other rules. -/
theorem unparsable_contributes_zero_witness :
    purchaseTotalPoints "NotANumber" = 0 ∧
    descriptionPoints (fun _ => 0) ⟨"Dasani", "1.40.1"⟩ = 0 ∧
    calculatePoints (fun _ => 0) { morningReceipt with Total := "NotANumber" } =
      9 + 5 + (0 + 1) + 0 + 0 :=
  have h := unparsable_contributes_zero (fun _ => 0) "NotANumber" ⟨"Dasani", "1.40.1"⟩
    { morningReceipt with Total := "NotANumber" } .ErrSyntax .ErrSyntax .ErrSyntax
  ⟨h.1 (by rfl), h.2.1 (by rfl), ((h.2.2 (by rfl)).2 (by decide!)).trans (by decide!)⟩

/-! ## Sanity of the rounding model -/

/-- Rounding to the nearest integer moves a fraction by at most one half. -/
theorem roundHalfEven_error (n d : Nat) (hd : 0 < d) :
    |((roundHalfEven n d : ℕ) : ℚ) - (n : ℚ) / (d : ℚ)| ≤ 1 / 2 := by
  have hdq : (0 : ℚ) < d := by exact_mod_cast hd
  have hdiv : (n : ℚ) = (d : ℚ) * ((n / d : ℕ) : ℚ) + ((n % d : ℕ) : ℚ) := by
    exact_mod_cast (Nat.div_add_mod n d).symm
  have hmod : n % d < d := Nat.mod_lt n hd
  have hmodq : ((n % d : ℕ) : ℚ) < d := by exact_mod_cast hmod
  have hmod0 : (0 : ℚ) ≤ ((n % d : ℕ) : ℚ) := by positivity
  have hfrac : (n : ℚ) / (d : ℚ) = ((n / d : ℕ) : ℚ) + ((n % d : ℕ) : ℚ) / d := by
    rw [hdiv]; field_simp; ring
  rw [abs_le, hfrac]
  unfold roundHalfEven
  split
  · rename_i h
    have h2 : d ≤ 2 * (n % d) := by omega
    have h2q : (d : ℚ) ≤ 2 * ((n % d : ℕ) : ℚ) := by exact_mod_cast h2
    have h3 : (1 : ℚ) / 2 ≤ ((n % d : ℕ) : ℚ) / d := by
      rw [le_div_iff₀ hdq]; linarith
    have h4 : ((n % d : ℕ) : ℚ) / d < 1 := by
      rw [div_lt_iff₀ hdq]; linarith
    push_cast
    constructor <;> linarith
  · rename_i h
    have h2 : 2 * (n % d) ≤ d := by omega
    have h2q : 2 * ((n % d : ℕ) : ℚ) ≤ (d : ℚ) := by exact_mod_cast h2
    have h3 : ((n % d : ℕ) : ℚ) / d ≤ 1 / 2 := by
      rw [div_le_iff₀ hdq]; linarith
    have h4 : (0 : ℚ) ≤ ((n % d : ℕ) : ℚ) / d := by positivity
    constructor <;> linarith

/-- The fraction `scaleFrac num den e` is `num / den` divided by `2^e`. -/
theorem scaleFrac_value (num den : Nat) (e : Int) (hden : 0 < den) :
    0 < (scaleFrac num den e).2 ∧
    ((scaleFrac num den e).1 : ℚ) / ((scaleFrac num den e).2 : ℚ)
      = (num : ℚ) / (den : ℚ) / (2 : ℚ) ^ e := by
  have hdq : (den : ℚ) ≠ 0 := by exact_mod_cast hden.ne.symm
  unfold scaleFrac
  by_cases he : 0 ≤ e
  · simp only [he, if_true]
    refine ⟨Nat.mul_pos hden (by positivity), ?_⟩
    rw [zpow_nonneg_toNat e he]
    push_cast
    field_simp
  · simp only [he, if_false]
    refine ⟨hden, ?_⟩
    rw [zpow_neg_toNat e (by omega)]
    push_cast
    field_simp

/-- A finite result of `F64.ofFrac` is within half a unit of its last place of
the exact quotient: `|m * 2^e - num / den| ≤ 2^e / 2`. -/
theorem ofFrac_error (neg : Bool) (num den m : Nat) (e : Int) (hden : 0 < den)
    (hnum : num ≠ 0) (h : F64.ofFrac neg num den = .fin neg m e) :
    |(m : ℚ) * (2 : ℚ) ^ e - (num : ℚ) / (den : ℚ)| ≤ (2 : ℚ) ^ e / 2 := by
  unfold F64.ofFrac at h
  simp only [hnum, if_false] at h
  split at h
  · cases h
  · simp only [F64.fin.injEq, true_and] at h
    obtain ⟨hm, he⟩ := h
    rw [he] at hm
    obtain ⟨hpos, hval⟩ := scaleFrac_value num den e hden
    have herr := roundHalfEven_error (scaleFrac num den e).1 (scaleFrac num den e).2 hpos
    rw [hm, hval] at herr
    have hz : (0 : ℚ) < (2 : ℚ) ^ e := zpow_pos (by norm_num) e
    have hmul : (m : ℚ) * (2 : ℚ) ^ e - (num : ℚ) / (den : ℚ)
        = ((m : ℚ) - (num : ℚ) / (den : ℚ) / (2 : ℚ) ^ e) * (2 : ℚ) ^ e := by
      field_simp
      ring
    rw [hmul, abs_mul, abs_of_pos hz]
    calc |(m : ℚ) - (num : ℚ) / (den : ℚ) / (2 : ℚ) ^ e| * (2 : ℚ) ^ e
        ≤ 1 / 2 * (2 : ℚ) ^ e := mul_le_mul_of_nonneg_right herr hz.le
      _ = (2 : ℚ) ^ e / 2 := by ring

/-- The total for a receipt is the sum of its six rules, wrapped to `uint64`. -/
theorem calculatePoints_wrap_sum (oor : F64 → Nat) (receipt : Receipt) :
    calculatePoints oor receipt =
      wrap64 (retailerPoints receipt.Retailer + purchaseTotalPoints receipt.Total
        + itemCountPoints receipt.Items
        + (receipt.Items.map (descriptionPoints oor)).sum
        + datePoints receipt.PurchaseDate + timeOfDayPoints receipt.PurchaseTime) := by
  unfold calculatePoints
  simp only []
  have h0 : addU64 0 (retailerPoints receipt.Retailer)
      = wrap64 (retailerPoints receipt.Retailer) := by simp [addU64]
  rw [h0, addU64_wrap64_left, addU64_wrap64_left, foldl_addU64, addU64_wrap64_left,
    addU64_wrap64_left]

theorem le_sum_of_mem (f : Item → Nat) (items : List Item) (item : Item) (h : item ∈ items) :
    f item ≤ (items.map f).sum :=
  List.single_le_sum (fun _ _ => Nat.zero_le _) _ (List.mem_map_of_mem f h)

/-- The conversion to `uint64` does not depend on the platform when two
platforms that disagree on every out-of-range value agree on it. -/
theorem toUint64_indep (x : F64)
    (h : toUint64 (fun _ => 0) x = toUint64 (fun _ => 1) x) (oor : F64 → Nat) :
    toUint64 oor x = toUint64 (fun _ => 0) x := by
  have w0 : wrap64 0 = 0 := by decide
  have w1 : wrap64 1 = 1 := by decide
  cases x with
  | nan => simp [toUint64, w0, w1] at h
  | inf neg => simp [toUint64, w0, w1] at h
  | fin neg m e =>
    simp only [toUint64] at h ⊢
    generalize (if 0 ≤ e then m * 2 ^ e.toNat else m / 2 ^ (-e).toNat) = t at h ⊢
    by_cases ht : t = 0
    · simp only [ht, if_true]
    · by_cases hr : neg = true ∨ uint64Mod ≤ t
      · simp only [ht, hr, if_false, if_true, w0, w1] at h
        exact absurd h (by decide)
      · simp only [ht, hr, if_false]

/-- The points of an item do not depend on the platform when two platforms that
disagree on every out-of-range conversion agree on them. -/
theorem descriptionPoints_indep (item : Item)
    (h : descriptionPoints (fun _ => 0) item = descriptionPoints (fun _ => 1) item)
    (oor : F64 → Nat) :
    descriptionPoints oor item = descriptionPoints (fun _ => 0) item := by
  unfold descriptionPoints at h ⊢
  simp only [] at h ⊢
  split
  · rename_i hlen
    simp only [hlen, if_true] at h
    cases hp : parseFloat item.Price with
    | error e => rfl
    | ok p =>
      simp only [hp] at h ⊢
      exact toUint64_indep _ h oor
  · rfl

/-- The total of a receipt does not depend on the platform when the points of
each of its items do not. -/
theorem calculatePoints_indep (receipt : Receipt)
    (h : ∀ item ∈ receipt.Items,
      descriptionPoints (fun _ => 0) item = descriptionPoints (fun _ => 1) item)
    (oor : F64 → Nat) :
    calculatePoints oor receipt = calculatePoints (fun _ => 0) receipt := by
  rw [calculatePoints_wrap_sum, calculatePoints_wrap_sum]
  have hmap : receipt.Items.map (descriptionPoints oor)
      = receipt.Items.map (descriptionPoints (fun _ => 0)) :=
    List.map_congr_left (fun item hmem => descriptionPoints_indep item (h item hmem) oor)
  rw [hmap]

/-- The exact sum of the rules of a receipt does not depend on the platform
when the points of each of its items do not. -/
theorem sumOfRules_indep (receipt : Receipt)
    (h : ∀ item ∈ receipt.Items,
      descriptionPoints (fun _ => 0) item = descriptionPoints (fun _ => 1) item)
    (oor : F64 → Nat) :
    sumOfRules oor receipt = sumOfRules (fun _ => 0) receipt ∧
    sumOfOtherRules oor receipt = sumOfOtherRules (fun _ => 0) receipt := by
  have hmap : receipt.Items.map (descriptionPoints oor)
      = receipt.Items.map (descriptionPoints (fun _ => 0)) :=
    List.map_congr_left (fun item hmem => descriptionPoints_indep item (h item hmem) oor)
  unfold sumOfRules sumOfOtherRules
  rw [hmap]
  exact ⟨rfl, rfl⟩

/-- C1, on the five-item Target receipt: the sum of the rules
`6 + 0 + 10 + 6 + 6 + 0` is below `2^64` and is the total, 28. -/
theorem calculatePoints_eq_sum_witness :
    sumOfRules (fun _ => 0) docExample1 = 6 + 0 + 10 + (0 + 3 + 0 + 0 + 3) + 6 + 0 ∧
    calculatePoints (fun _ => 0) docExample1 = 28 :=
  ⟨by decide!,
   ((calculatePoints_eq_sum (fun _ => 0) docExample1).2 (by decide!)).trans (by decide!)⟩

/-- C1, as stated, fails when the sum reaches `2^64`: for the receipt with two
items priced `90000000000000000000.00` the six contributions add up to
36000000000000000005 on every platform, and `calculatePoints` returns
17553255926290448389. -/
theorem calculatePoints_not_exact_sum :
    (∀ oor : F64 → Nat, sumOfRules oor hugePricesReceipt = 36000000000000000005) ∧
    (∀ oor : F64 → Nat, calculatePoints oor hugePricesReceipt = 17553255926290448389) ∧
    (∀ oor : F64 → Nat,
      calculatePoints oor hugePricesReceipt ≠ sumOfRules oor hugePricesReceipt) := by
  have hs : ∀ oor : F64 → Nat, sumOfRules oor hugePricesReceipt = 36000000000000000005 :=
    fun oor => ((sumOfRules_indep hugePricesReceipt (by decide!) oor).1).trans (by decide!)
  have hc : ∀ oor : F64 → Nat,
      calculatePoints oor hugePricesReceipt = 17553255926290448389 :=
    fun oor => (calculatePoints_indep hugePricesReceipt (by decide!) oor).trans (by decide!)
  refine ⟨hs, hc, fun oor => ?_⟩
  rw [hs, hc]
  decide

/-- C10, as stated, fails when the sum of the other rules reaches `2^64`: the
receipt with two items priced `90000000000000000000.00` and the total
`NotANumber` has a total that does not parse, its other rules add up to
36000000000000000005 on every platform, and `calculatePoints` returns
17553255926290448389. -/
theorem unparsable_total_not_exact_sum :
    parseFloat hugePricesBadTotal.Total = .error .ErrSyntax ∧
    (∀ oor : F64 → Nat, sumOfOtherRules oor hugePricesBadTotal = 36000000000000000005) ∧
    (∀ oor : F64 → Nat, calculatePoints oor hugePricesBadTotal = 17553255926290448389) ∧
    (∀ oor : F64 → Nat,
      calculatePoints oor hugePricesBadTotal ≠ sumOfOtherRules oor hugePricesBadTotal) := by
  have hs : ∀ oor : F64 → Nat,
      sumOfOtherRules oor hugePricesBadTotal = 36000000000000000005 :=
    fun oor => ((sumOfRules_indep hugePricesBadTotal (by decide!) oor).2).trans (by decide!)
  have hc : ∀ oor : F64 → Nat,
      calculatePoints oor hugePricesBadTotal = 17553255926290448389 :=
    fun oor => (calculatePoints_indep hugePricesBadTotal (by decide!) oor).trans (by decide!)
  refine ⟨by rfl, hs, hc, fun oor => ?_⟩
  rw [hs, hc]
  decide

/-- C11 (as amended): whenever the exact sum of the six rules of a receipt is
below `2^64`, `calculatePoints` is that sum, and it is at least each of the
contributions: the retailer, total, item-count, date and time points and the
description points of every item. -/
theorem calculatePoints_ge_contributions (oor : F64 → Nat) (receipt : Receipt)
    (hsum : retailerPoints receipt.Retailer + purchaseTotalPoints receipt.Total
        + itemCountPoints receipt.Items
        + (receipt.Items.map (descriptionPoints oor)).sum
        + datePoints receipt.PurchaseDate + timeOfDayPoints receipt.PurchaseTime < 2 ^ 64) :
    calculatePoints oor receipt =
        retailerPoints receipt.Retailer + purchaseTotalPoints receipt.Total
        + itemCountPoints receipt.Items
        + (receipt.Items.map (descriptionPoints oor)).sum
        + datePoints receipt.PurchaseDate + timeOfDayPoints receipt.PurchaseTime ∧
    retailerPoints receipt.Retailer ≤ calculatePoints oor receipt ∧
    purchaseTotalPoints receipt.Total ≤ calculatePoints oor receipt ∧
    itemCountPoints receipt.Items ≤ calculatePoints oor receipt ∧
    (∀ item ∈ receipt.Items, descriptionPoints oor item ≤ calculatePoints oor receipt) ∧
    datePoints receipt.PurchaseDate ≤ calculatePoints oor receipt ∧
    timeOfDayPoints receipt.PurchaseTime ≤ calculatePoints oor receipt := by
  have heq := calculatePoints_wrap_sum oor receipt
  rw [wrap64_of_lt hsum] at heq
  refine ⟨heq, by omega, by omega, by omega, ?_, by omega, by omega⟩
  intro item hmem
  have := le_sum_of_mem (descriptionPoints oor) receipt.Items item hmem
  omega

set_option maxRecDepth 100000 in
/-- C11, on the five-item Target receipt: the sum of the rules is 28, below
`2^64`, and the total 28 is at least the 6 retailer points and the 3 points of
the pizza. -/
theorem calculatePoints_ge_contributions_witness :
    calculatePoints (fun _ => 0) docExample1 = 28 ∧
    retailerPoints docExample1.Retailer = 6 ∧
    descriptionPoints (fun _ => 0) ⟨"Emils Cheese Pizza", "12.25"⟩ = 3 ∧
    descriptionPoints (fun _ => 0) ⟨"Emils Cheese Pizza", "12.25"⟩
      ≤ calculatePoints (fun _ => 0) docExample1 :=
  have h := calculatePoints_ge_contributions (fun _ => 0) docExample1 (by decide!)
  ⟨h.1.trans (by decide!), by decide, by decide!,
    h.2.2.2.2.1 ⟨"Emils Cheese Pizza", "12.25"⟩ (by decide)⟩

set_option maxRecDepth 100000 in
/-- C11, as stated, fails when the sum wraps: an item priced
`90000000000000000000.00` with a three-letter description scores
18000000000000000000 whatever the platform, and a receipt with two of them
totals 17553255926290448389, which is less than the contribution of either. -/
theorem calculatePoints_wraps_around :
    (∀ oor : F64 → Nat,
      descriptionPoints oor ⟨"abc", "90000000000000000000.00"⟩ = 18000000000000000000) ∧
    (∀ oor : F64 → Nat, calculatePoints oor hugePricesReceipt = 17553255926290448389) ∧
    (∀ oor : F64 → Nat, calculatePoints oor hugePricesReceipt
      < descriptionPoints oor ⟨"abc", "90000000000000000000.00"⟩) := by
  have hi : ∀ oor : F64 → Nat, descriptionPoints oor ⟨"abc", "90000000000000000000.00"⟩
      = descriptionPoints (fun _ => 0) ⟨"abc", "90000000000000000000.00"⟩ :=
    descriptionPoints_indep _ (by decide!)
  have hc : ∀ oor : F64 → Nat, calculatePoints oor hugePricesReceipt
      = calculatePoints (fun _ => 0) hugePricesReceipt :=
    calculatePoints_indep _ (by decide!)
  have h1 : descriptionPoints (fun _ => 0) ⟨"abc", "90000000000000000000.00"⟩
      = 18000000000000000000 := by decide!
  have h2 : calculatePoints (fun _ => 0) hugePricesReceipt = 17553255926290448389 := by decide!
  refine ⟨fun oor => (hi oor).trans h1, fun oor => (hc oor).trans h2, fun oor => ?_⟩
  rw [hi, hc, h1, h2]
  decide

/-- C12: the order of the items does not affect the score: replacing the items
of a receipt by any permutation of them leaves `calculatePoints` unchanged. -/
theorem calculatePoints_perm (oor : F64 → Nat) (receipt : Receipt) (items : List Item)
    (hperm : receipt.Items.Perm items) :
    calculatePoints oor { receipt with Items := items } = calculatePoints oor receipt := by
  rw [calculatePoints_wrap_sum, calculatePoints_wrap_sum]
  have hlen : itemCountPoints items = itemCountPoints receipt.Items := by
    unfold itemCountPoints
    rw [hperm.length_eq]
  have hs : (items.map (descriptionPoints oor)).sum
      = (receipt.Items.map (descriptionPoints oor)).sum :=
    ((hperm.map (descriptionPoints oor)).sum_eq).symm
  simp only [hlen, hs]

set_option maxRecDepth 100000 in
/-- C12, on the five-item Target receipt with its items in reverse order: the
score is 28 again. -/
theorem calculatePoints_perm_witness :
    docExample1.Items.Perm docExample1.Items.reverse ∧
    calculatePoints (fun _ => 0) { docExample1 with Items := docExample1.Items.reverse } = 28 :=
  ⟨(List.reverse_perm _).symm,
   (calculatePoints_perm (fun _ => 0) docExample1 docExample1.Items.reverse
      (List.reverse_perm _).symm).trans (by decide!)⟩

/-! ## Helper lemmas: identifiers and the store -/

theorem xvalue_hexDigit (n : Nat) (h : n < 16) : xvalue (hexDigit n) = n := by
  unfold hexDigit xvalue
  by_cases h10 : n < 10
  · rw [if_pos h10, if_pos (by omega)]
    omega
  · rw [if_neg h10, if_neg (by omega), if_neg (by omega), if_pos (by omega)]
    omega

theorem xtob_hexByte (b : Fin 256) :
    xtob (hexDigit (b.val / 16)) (hexDigit (b.val % 16)) = some b := by
  have h1 : b.val / 16 < 16 := by omega
  have h2 : b.val % 16 < 16 := by omega
  unfold xtob
  rw [xvalue_hexDigit _ h1, xvalue_hexDigit _ h2, if_pos (by omega)]
  congr 1
  apply Fin.ext
  simp only [Fin.ofNat, Fin.val_mk]
  omega

theorem uuidString_eq (u : UUID) : uuidString u =
    [hexDigit (u.b0.val / 16),
      hexDigit (u.b0.val % 16),
      hexDigit (u.b1.val / 16),
      hexDigit (u.b1.val % 16),
      hexDigit (u.b2.val / 16),
      hexDigit (u.b2.val % 16),
      hexDigit (u.b3.val / 16),
      hexDigit (u.b3.val % 16),
      45,
      hexDigit (u.b4.val / 16),
      hexDigit (u.b4.val % 16),
      hexDigit (u.b5.val / 16),
      hexDigit (u.b5.val % 16),
      45,
      hexDigit (u.b6.val / 16),
      hexDigit (u.b6.val % 16),
      hexDigit (u.b7.val / 16),
      hexDigit (u.b7.val % 16),
      45,
      hexDigit (u.b8.val / 16),
      hexDigit (u.b8.val % 16),
      hexDigit (u.b9.val / 16),
      hexDigit (u.b9.val % 16),
      45,
      hexDigit (u.b10.val / 16),
      hexDigit (u.b10.val % 16),
      hexDigit (u.b11.val / 16),
      hexDigit (u.b11.val % 16),
      hexDigit (u.b12.val / 16),
      hexDigit (u.b12.val % 16),
      hexDigit (u.b13.val / 16),
      hexDigit (u.b13.val % 16),
      hexDigit (u.b14.val / 16),
      hexDigit (u.b14.val % 16),
      hexDigit (u.b15.val / 16),
      hexDigit (u.b15.val % 16)] := by
  simp only [uuidString, hexByte, List.cons_append, List.nil_append, List.append_assoc]

theorem uuidString_length (u : UUID) : (uuidString u).length = 36 := by
  rw [uuidString_eq]
  rfl

/-- Parsing the string form of an identifier gives the identifier back. -/
theorem uuidParse_uuidString (u : UUID) : uuidParse (uuidString u) = some u := by
  unfold uuidParse
  rw [if_pos (uuidString_length u)]
  rw [uuidString_eq]
  simp only [uuidParseDashed, xtobAt, List.getD_cons_succ, List.getD_cons_zero, List.map_cons,
    List.map_nil, xtob_hexByte, allSome, uuidOfBytes, ne_eq, not_true_eq_false, or_self,
    if_false]

theorem runStore_cons (decode : List Nat → Option Receipt) (oor : F64 → Nat) (pointsMap : Store)
    (op : Op) (ops : List Op) :
    runStore decode oor pointsMap (op :: ops)
      = runStore decode oor (stepStore decode oor pointsMap op) ops := rfl

/-- One request changes the store at most at the identifier it stores under. -/
theorem stepStore_other (decode : List Nat → Option Receipt) (oor : F64 → Nat)
    (pointsMap : Store) (op : Op) (id : UUID) (h : Op.stored decode op ≠ some id) :
    stepStore decode oor pointsMap op id = pointsMap id := by
  cases op with
  | lookup reqReceiptId =>
    simp only [stepStore, GetReceiptsIdPoints]
    split
    · rfl
    · split <;> rfl
  | submit requestBody rand =>
    simp only [stepStore, PostReceiptsProcess, Op.stored] at h ⊢
    cases hd : decode requestBody with
    | none => rfl
    | some receipt =>
      simp only [hd] at h ⊢
      cases hr : uuidNewRandom rand with
      | none => rfl
      | some newId =>
        simp only [hr] at h ⊢
        have hne : id ≠ newId := fun heq => h (by rw [heq])
        simp [Store.set, hne]

/-- One request never removes an entry of the store. -/
theorem stepStore_present (decode : List Nat → Option Receipt) (oor : F64 → Nat)
    (pointsMap : Store) (op : Op) (id : UUID) (h : pointsMap id ≠ none) :
    stepStore decode oor pointsMap op id ≠ none := by
  by_cases hs : Op.stored decode op = some id
  · cases op with
    | lookup reqReceiptId => simp [Op.stored] at hs
    | submit requestBody rand =>
      simp only [stepStore, PostReceiptsProcess, Op.stored] at hs ⊢
      cases hd : decode requestBody with
      | none => simp [hd] at hs
      | some receipt =>
        simp only [hd] at hs ⊢
        simp [hs, Store.set]
  · rw [stepStore_other decode oor pointsMap op id hs]
    exact h

/-- Requests that do not store under an identifier leave its entry as it was. -/
theorem runStore_other (decode : List Nat → Option Receipt) (oor : F64 → Nat)
    (ops : List Op) (pointsMap : Store) (id : UUID)
    (h : ∀ op ∈ ops, Op.stored decode op ≠ some id) :
    runStore decode oor pointsMap ops id = pointsMap id := by
  induction ops generalizing pointsMap with
  | nil => rfl
  | cons op ops ih =>
    rw [runStore_cons, ih _ (fun o ho => h o (List.mem_cons_of_mem _ ho)),
      stepStore_other decode oor pointsMap op id (h op (List.mem_cons_self _ _))]

/-- No sequence of requests removes an entry of the store. -/
theorem runStore_present (decode : List Nat → Option Receipt) (oor : F64 → Nat)
    (ops : List Op) (pointsMap : Store) (id : UUID) (h : pointsMap id ≠ none) :
    runStore decode oor pointsMap ops id ≠ none := by
  induction ops generalizing pointsMap with
  | nil => exact h
  | cons op ops ih =>
    rw [runStore_cons]
    exact ih _ (stepStore_present decode oor pointsMap op id h)

/-! ## Helper lemmas: the bodies of the answers -/

theorem digitChar_toNat (d : Nat) (h : d < 10) : (Nat.digitChar d).toNat - 48 = d := by
  interval_cases d <;> rfl

theorem readDecimal_append (l m : List Nat) (acc : Nat) :
    readDecimal acc (l ++ m) = readDecimal (readDecimal acc l) m := by
  induction l generalizing acc with
  | nil => rfl
  | cons c cs ih => exact ih (acc * 10 + (c - 48))

theorem toDigitsCore_append (fuel n : Nat) (ds : List Char) :
    Nat.toDigitsCore 10 fuel n ds = Nat.toDigitsCore 10 fuel n [] ++ ds := by
  induction fuel generalizing n ds with
  | zero => simp [Nat.toDigitsCore]
  | succ fuel ih =>
    simp only [Nat.toDigitsCore]
    split
    · simp
    · rw [ih (n / 10) (Nat.digitChar (n % 10) :: ds), ih (n / 10) [Nat.digitChar (n % 10)]]
      simp

/-- Reading the decimal digits of a number gives the number back. -/
theorem readDecimal_toDigitsCore (fuel n : Nat) (h : n < fuel) :
    readDecimal 0 ((Nat.toDigitsCore 10 fuel n []).map Char.toNat) = n := by
  induction fuel generalizing n with
  | zero => omega
  | succ fuel ih =>
    simp only [Nat.toDigitsCore]
    have hd := digitChar_toNat (n % 10) (Nat.mod_lt n (by decide))
    split
    · rename_i h0
      show 0 * 10 + ((Nat.digitChar (n % 10)).toNat - 48) = n
      rw [hd]
      omega
    · rename_i h0
      rw [toDigitsCore_append, List.map_append, readDecimal_append,
        ih (n / 10) (by omega)]
      show n / 10 * 10 + ((Nat.digitChar (n % 10)).toNat - 48) = n
      rw [hd]
      omega

theorem readDecimal_repr (n : Nat) : readDecimal 0 (asciiBytes (Nat.repr n)) = n := by
  unfold asciiBytes Nat.repr Nat.toDigits
  simp only [List.asString, String.toList]
  exact readDecimal_toDigitsCore (n + 1) n (Nat.lt_succ_self n)

/-- The body of a lookup answer determines the points it carries. -/
theorem pointsJSON_injective (a b : Nat) (h : pointsJSON a = pointsJSON b) : a = b := by
  unfold pointsJSON at h
  have h1 := List.append_cancel_right h
  have h2 := List.append_cancel_left h1
  have h3 := congrArg (readDecimal 0) h2
  rwa [readDecimal_repr, readDecimal_repr] at h3

/-- The string form of an identifier determines the identifier. -/
theorem uuidString_injective (a b : UUID) (h : uuidString a = uuidString b) : a = b := by
  have h1 := congrArg uuidParse h
  rw [uuidParse_uuidString, uuidParse_uuidString] at h1
  exact Option.some.inj h1

/-- The body of a submission answer determines the identifier it carries. -/
theorem idJSON_injective (a b : UUID) (h : idJSON a = idJSON b) : a = b := by
  unfold idJSON at h
  exact uuidString_injective a b (List.append_cancel_left (List.append_cancel_right h))

/-- C13: after a submission that decodes to a receipt and draws the identifier
`id`, the answer is 200 and its body carries `id` in its string form and no
other identifier; a lookup of the string form of `id` then answers 200 with a
body that carries the points `calculatePoints` gives the receipt and no other
number; and in a store built from the empty one by requests none of which stored
under an identifier, a lookup of any string that parses to that identifier
answers 404. -/
theorem store_round_trip (decode : List Nat → Option Receipt) (oor : F64 → Nat)
    (pointsMap : Store) (requestBody : List Nat) (rand : Option UUID) (receipt : Receipt)
    (id : UUID) (hdecode : decode requestBody = some receipt)
    (hrand : uuidNewRandom rand = some id) :
    (PostReceiptsProcess decode oor pointsMap requestBody rand).1 = ⟨200, idJSON id⟩ ∧
    (∀ other : UUID,
      (PostReceiptsProcess decode oor pointsMap requestBody rand).1 = ⟨200, idJSON other⟩ →
      other = id) ∧
    (GetReceiptsIdPoints (PostReceiptsProcess decode oor pointsMap requestBody rand).2
      (uuidString id)).1 = ⟨200, pointsJSON (calculatePoints oor receipt)⟩ ∧
    (∀ points : Nat,
      (GetReceiptsIdPoints (PostReceiptsProcess decode oor pointsMap requestBody rand).2
        (uuidString id)).1 = ⟨200, pointsJSON points⟩ →
      points = calculatePoints oor receipt) ∧
    (∀ (ops : List Op) (s : List Nat) (other : UUID), uuidParse s = some other →
      (∀ op ∈ ops, Op.stored decode op ≠ some other) →
      (GetReceiptsIdPoints (runStore decode oor Store.empty ops) s).1 = ⟨404, []⟩) := by
  have hpost : (PostReceiptsProcess decode oor pointsMap requestBody rand).1
      = ⟨200, idJSON id⟩ := by
    simp [PostReceiptsProcess, hdecode, hrand]
  have hget : (GetReceiptsIdPoints
      (PostReceiptsProcess decode oor pointsMap requestBody rand).2 (uuidString id)).1
      = ⟨200, pointsJSON (calculatePoints oor receipt)⟩ := by
    simp [PostReceiptsProcess, GetReceiptsIdPoints, hdecode, hrand, uuidParse_uuidString,
      Store.set]
  refine ⟨hpost, ?_, hget, ?_, ?_⟩
  · intro other h
    rw [hpost] at h
    exact (idJSON_injective id other (congrArg Response.body h)).symm
  · intro points h
    rw [hget] at h
    exact (pointsJSON_injective _ points (congrArg Response.body h)).symm
  · intro ops s other hparse hnever
    have habsent : runStore decode oor Store.empty ops other = none := by
      rw [runStore_other decode oor ops Store.empty other hnever]
      rfl
    simp [GetReceiptsIdPoints, hparse, habsent]

/-- C13, on an example: the `docExample1` receipt submitted to the empty store
under the sample identifier is answered with the 36 characters of the
identifier, a lookup of these answers 200 with the body `points: 28`, and the
identifier is not found in the empty store. -/
theorem store_round_trip_witness :
    (PostReceiptsProcess sampleDecode (fun _ => 0) Store.empty [1] (some sampleUUID)).1
      = ⟨200, asciiBytes "\x7b\"id\":\"00010203-0405-4607-8809-0a0b0c0d0e0f\"\x7d\n"⟩ ∧
    uuidString sampleUUID = asciiBytes "00010203-0405-4607-8809-0a0b0c0d0e0f" ∧
    (GetReceiptsIdPoints
      (PostReceiptsProcess sampleDecode (fun _ => 0) Store.empty [1] (some sampleUUID)).2
      (uuidString sampleUUID)).1 = ⟨200, asciiBytes "\x7b\"points\":28\x7d\n"⟩ ∧
    (GetReceiptsIdPoints (runStore sampleDecode (fun _ => 0) Store.empty [])
      (uuidString sampleUUID)).1 = ⟨404, []⟩ :=
  have h := store_round_trip sampleDecode (fun _ => 0) Store.empty [1] (some sampleUUID)
    docExample1 sampleUUID (by decide) (by decide)
  ⟨h.1.trans (by decide!), by decide, h.2.2.1.trans (by decide!),
   h.2.2.2.2 [] (uuidString sampleUUID) sampleUUID (by decide) (by simp)⟩

/-- C14: for every store and every string that parses to an identifier, the
lookup answers 404 with no body exactly when the identifier is absent from the
store, and answers 200 with a body carrying the points `p` exactly when the
identifier is present with the points `p`; a stored score of zero is answered
200, not 404. -/
theorem lookup_distinguishes (pointsMap : Store) (s : List Nat) (id : UUID)
    (hparse : uuidParse s = some id) :
    ((GetReceiptsIdPoints pointsMap s).1 = ⟨404, []⟩ ↔ pointsMap id = none) ∧
    (∀ points : Nat,
      (GetReceiptsIdPoints pointsMap s).1 = ⟨200, pointsJSON points⟩ ↔
        pointsMap id = some points) ∧
    ((∃ points, pointsMap id = some points ∧
        (GetReceiptsIdPoints pointsMap s).1 = ⟨200, pointsJSON points⟩) ↔ pointsMap id ≠ none) ∧
    ((GetReceiptsIdPoints pointsMap s).1.status = 200 ↔ pointsMap id ≠ none) ∧
    (pointsMap id = some 0 → (GetReceiptsIdPoints pointsMap s).1 = ⟨200, pointsJSON 0⟩) := by
  unfold GetReceiptsIdPoints
  rw [hparse]
  cases hm : pointsMap id with
  | none => simp [hm]
  | some stored =>
    simp only [hm]
    refine ⟨by simp, ?_, by simp, by simp, ?_⟩
    · intro points
      constructor
      · intro h
        rw [pointsJSON_injective stored points (congrArg Response.body h)]
      · intro h
        rw [Option.some.inj h]
    · intro h0
      cases h0
      rfl

/-- C14, on an example: the sample identifier stored with 0 points is answered
200 with the body `points: 0`, and 404 with no body when absent. -/
theorem lookup_distinguishes_witness :
    (GetReceiptsIdPoints (Store.empty.set sampleUUID 0) (uuidString sampleUUID)).1
      = ⟨200, asciiBytes "\x7b\"points\":0\x7d\n"⟩ ∧
    (GetReceiptsIdPoints Store.empty (uuidString sampleUUID)).1 = ⟨404, []⟩ :=
  ⟨((lookup_distinguishes (Store.empty.set sampleUUID 0) (uuidString sampleUUID) sampleUUID
      (by decide)).2.2.2.2 (by decide)).trans (by decide!),
   (lookup_distinguishes Store.empty (uuidString sampleUUID) sampleUUID (by decide)).1.2 rfl⟩

/-- Requests that store only under identifiers absent from the store leave the
entries already there as they were. -/
theorem runStore_fresh (decode : List Nat → Option Receipt) (oor : F64 → Nat)
    (ops : List Op) (pointsMap : Store) (id : UUID) (points : Nat)
    (hstored : pointsMap id = some points) (hfresh : freshRun decode oor pointsMap ops = true) :
    runStore decode oor pointsMap ops id = some points := by
  induction ops generalizing pointsMap with
  | nil => exact hstored
  | cons op ops ih =>
    simp only [freshRun, Bool.and_eq_true] at hfresh
    obtain ⟨hop, hrest⟩ := hfresh
    have hne : Op.stored decode op ≠ some id := by
      intro hs
      rw [hs] at hop
      simp [hstored] at hop
    rw [runStore_cons]
    apply ih _ _ hrest
    rw [stepStore_other decode oor pointsMap op id hne]
    exact hstored

/-- C15: stored scores are immutable: for every store and every sequence of
further submissions and lookups in which identifiers are never reused (each
submission draws an identifier that is not yet in the store), an identifier
already in the store stays in the store and keeps the points it was stored
with. -/
theorem stored_entry_immutable (decode : List Nat → Option Receipt) (oor : F64 → Nat)
    (pointsMap : Store) (ops : List Op) (id : UUID) (points : Nat)
    (hstored : pointsMap id = some points)
    (hfresh : freshRun decode oor pointsMap ops = true) :
    runStore decode oor pointsMap ops id = some points :=
  runStore_fresh decode oor ops pointsMap id points hstored hfresh

/-- C15, on an example: the sample identifier stored with 28 points keeps them
through a lookup, a submission stored under a second identifier, a submission
that does not decode and one for which no identifier can be drawn. -/
theorem stored_entry_immutable_witness :
    (Store.empty.set sampleUUID 28) sampleUUID = some 28 ∧
    freshRun sampleDecode (fun _ => 0) (Store.empty.set sampleUUID 28)
      [.lookup (uuidString sampleUUID), .submit [2] (some sampleUUID2),
        .submit [3] (some sampleUUID), .submit [1] none] = true ∧
    runStore sampleDecode (fun _ => 0) (Store.empty.set sampleUUID 28)
      [.lookup (uuidString sampleUUID), .submit [2] (some sampleUUID2),
        .submit [3] (some sampleUUID), .submit [1] none] sampleUUID = some 28 ∧
    runStore sampleDecode (fun _ => 0) (Store.empty.set sampleUUID 28)
      [.lookup (uuidString sampleUUID), .submit [2] (some sampleUUID2),
        .submit [3] (some sampleUUID), .submit [1] none] sampleUUID2 = some 31 :=
  ⟨by decide, by decide,
   stored_entry_immutable sampleDecode (fun _ => 0) (Store.empty.set sampleUUID 28)
      [.lookup (uuidString sampleUUID), .submit [2] (some sampleUUID2),
        .submit [3] (some sampleUUID), .submit [1] none] sampleUUID 28 (by decide) (by decide),
   by decide!⟩

/-- C16: a submission whose body does not decode is answered 400, one whose
identifier cannot be drawn is answered 500, and in both cases the store after
the call is the store before it. -/
theorem failed_submission_stores_nothing (decode : List Nat → Option Receipt) (oor : F64 → Nat)
    (pointsMap : Store) (requestBody : List Nat) (rand : Option UUID) :
    (decode requestBody = none →
      PostReceiptsProcess decode oor pointsMap requestBody rand = (⟨400, []⟩, pointsMap)) ∧
    (decode requestBody ≠ none → uuidNewRandom rand = none →
      PostReceiptsProcess decode oor pointsMap requestBody rand = (⟨500, []⟩, pointsMap)) := by
  constructor
  · intro hd
    simp [PostReceiptsProcess, hd]
  · intro hd hr
    cases hdec : decode requestBody with
    | none => exact absurd hdec hd
    | some receipt => simp [PostReceiptsProcess, hdec, hr]

/-- C16, on examples: a body that does not decode gives 400 and a failing
random source gives 500, the store being left as it was. -/
theorem failed_submission_stores_nothing_witness :
    PostReceiptsProcess sampleDecode (fun _ => 0) (Store.empty.set sampleUUID 28) [3]
      (some sampleUUID) = (⟨400, []⟩, Store.empty.set sampleUUID 28) ∧
    PostReceiptsProcess sampleDecode (fun _ => 0) (Store.empty.set sampleUUID 28) [1] none
      = (⟨500, []⟩, Store.empty.set sampleUUID 28) :=
  ⟨(failed_submission_stores_nothing sampleDecode (fun _ => 0) (Store.empty.set sampleUUID 28)
      [3] (some sampleUUID)).1 (by decide),
   (failed_submission_stores_nothing sampleDecode (fun _ => 0) (Store.empty.set sampleUUID 28)
      [1] none).2 (by decide) (by decide)⟩

/-- C17: a lookup never changes the store: for every store and every
identifier string, malformed, unknown or present, the store after
`GetReceiptsIdPoints` is the store before it; the three kinds of answers occur. -/
theorem lookup_never_mutates :
    (∀ (pointsMap : Store) (reqReceiptId : List Nat),
      (GetReceiptsIdPoints pointsMap reqReceiptId).2 = pointsMap) ∧
    (GetReceiptsIdPoints (Store.empty.set sampleUUID 28) (asciiBytes "not-an-id")).1.status
      = 400 ∧
    (GetReceiptsIdPoints Store.empty (uuidString sampleUUID)).1.status = 404 ∧
    (GetReceiptsIdPoints (Store.empty.set sampleUUID 28) (uuidString sampleUUID)).1.status
      = 200 := by
  refine ⟨?_, by decide, by decide, by decide⟩
  intro pointsMap reqReceiptId
  unfold GetReceiptsIdPoints
  split
  · rfl
  · split <;> rfl

/-- C19: for every total string `purchaseTotalPoints` is 0, 25 or 75, never 50
alone: an exact multiple of 0.50 is an exact multiple of 0.25; and totals that
parse to NaN or to an infinity give 0. -/
theorem purchaseTotalPoints_values :
    (∀ total : String, purchaseTotalPoints total = 0 ∨ purchaseTotalPoints total = 25
      ∨ purchaseTotalPoints total = 75) ∧
    (∀ v : F64, v.isMultipleOf (1 / 2) = true → v.isMultipleOf (1 / 4) = true) ∧
    purchaseTotalPoints "NaN" = 0 ∧ purchaseTotalPoints "Inf" = 0 ∧
    purchaseTotalPoints "-Infinity" = 0 ∧ purchaseTotalPoints "1e999" = 0 := by
  have hmul : ∀ v : F64, v.isMultipleOf (1 / 2) = true → v.isMultipleOf (1 / 4) = true := by
    intro v hv
    unfold F64.isMultipleOf at hv ⊢
    cases hr : v.toRat with
    | none => simp [hr] at hv
    | some x =>
      simp only [hr, rat_isInt_iff] at hv ⊢
      obtain ⟨k, hk⟩ := hv
      refine ⟨2 * k, ?_⟩
      have hx : x = k / 2 := by
        field_simp at hk
        linarith
      rw [hx]
      push_cast
      ring
  refine ⟨?_, hmul, by decide, by decide, by decide, by decide!⟩
  intro total
  unfold purchaseTotalPoints
  cases hp : parseFloat total with
  | error e => left; rfl
  | ok v =>
    simp only []
    rw [mathMod_const_eq_zero_iff v const_0_50 (1 / 2) (2 ^ 52) (-53) const_0_50_eq
        (by norm_num) (by norm_num),
      mathMod_const_eq_zero_iff v const_0_25 (1 / 4) (2 ^ 52) (-54) const_0_25_eq
        (by norm_num) (by norm_num)]
    cases h2 : v.isMultipleOf (1 / 2)
    · cases h4 : v.isMultipleOf (1 / 4)
      · left; decide
      · right; left; decide
    · rw [hmul v h2]
      right; right; decide

/-- C19, on the total `9.00`: it parses to 9, a multiple of 0.50 and therefore
of 0.25. -/
theorem purchaseTotalPoints_values_witness :
    (F64.fin false 5066549580791808 (-49)).isMultipleOf (1 / 2) = true ∧
    (F64.fin false 5066549580791808 (-49)).isMultipleOf (1 / 4) = true :=
  ⟨by decide!, purchaseTotalPoints_values.2.1 (.fin false 5066549580791808 (-49)) (by decide!)⟩

/-- C20: whether an item qualifies depends only on the number of UTF-8 bytes of
its trimmed description modulo 3, not on its number of characters: the single
character `€` (3 bytes) qualifies, and the three characters `éé€` (7 bytes) do
not. -/
theorem descriptionPoints_counts_bytes :
    (∀ (oor : F64 → Nat) (d1 d2 price : String),
      goLen (stringsTrimSpace d1) % 3 = goLen (stringsTrimSpace d2) % 3 →
      descriptionPoints oor ⟨d1, price⟩ = descriptionPoints oor ⟨d2, price⟩) ∧
    ("€".length = 1 ∧ goLen (stringsTrimSpace "€") = 3 ∧
      ∀ oor : F64 → Nat, descriptionPoints oor ⟨"€", "1.40"⟩ = 1) ∧
    ("éé€".length = 3 ∧ goLen (stringsTrimSpace "éé€") = 7 ∧
      ∀ oor : F64 → Nat, descriptionPoints oor ⟨"éé€", "1.40"⟩ = 0) := by
  refine ⟨?_, ⟨by decide, by decide, ?_⟩, ⟨by decide, by decide, ?_⟩⟩
  · intro oor d1 d2 price h
    unfold descriptionPoints
    simp only [h]
  · intro oor
    rw [descriptionPoints_indep _ (by decide!) oor]
    decide!
  · intro oor
    rw [descriptionPoints_indep _ (by decide!) oor]
    decide!

/-- C20, on two descriptions of the same byte length modulo 3: `abc` and `€`
score alike at the price `1.40`. -/
theorem descriptionPoints_counts_bytes_witness :
    descriptionPoints (fun _ => 0) ⟨"abc", "1.40"⟩ = descriptionPoints (fun _ => 0) ⟨"€", "1.40"⟩ :=
  descriptionPoints_counts_bytes.1 (fun _ => 0) "abc" "€" "1.40" (by decide)

end ReceiptServer
